import Mathlib

/-!
# Verification of the `DataFetcherCache` on-disk caching layer

This file gives a shallow embedding of the URL-to-local-file cache of
`skdaccess/framework/data_class.py` (`DataFetcherCache`): the helper
functions `parseURL` and `generatePath` defined inside `cacheData`, the
presence check `checkIfDataExists`, and the download loop of `cacheData`
itself, together with models of the Python standard-library routines they
rely on (`urllib.parse.urlparse`, `os.path.join`, `pathlib.PurePosixPath`
parts, `glob`).

Strings are modelled as `List Char` (`Str`); the filesystem is an
association list from paths to byte contents; network transfers are an
oracle function from parsed URLs to outcomes.  All definitions are
executable so concrete runs can be settled by `decide`.
-/

set_option autoImplicit false

/-- Strings of the model: lists of characters. -/
abbrev Str := List Char

/-- File contents: a list of bytes (as naturals). -/
abbrev Content := List Nat

/-- Split a character list at every occurrence of `sep`
(model of Python `str.split(sep)` for a one-character separator;
also the component decomposition used by `pathlib`). -/
def splitChar (sep : Char) : Str → List Str
  | [] => [[]]
  | c :: cs =>
    match splitChar sep cs with
    | [] => [[c]]
    | h :: t => if c = sep then [] :: h :: t else (c :: h) :: t

/-- Join a list of character lists with a one-character separator,
inverse of `splitChar`. -/
def joinSep (sep : Char) : List Str → Str
  | [] => []
  | [x] => x
  | x :: xs => x ++ sep :: joinSep sep xs

/-- Split a character list at the first occurrence of `t`, returning the
parts before and after it (model of Python `str.split(t, 1)` /
`str.find(t)`). -/
def breakAt (t : Char) : Str → Option (Str × Str)
  | [] => none
  | c :: cs =>
    if c = t then some ([], cs)
    else (breakAt t cs).map (fun pr => (c :: pr.1, pr.2))

/-- Result of `urllib.parse.urlparse`: the six string components
`(scheme, netloc, path, params, query, fragment)`.  Equality and the sort
order used by `missing_files.sort()` are tuple-wise, as for the Python
named tuple. -/
structure ParseResult where
  scheme : Str
  netloc : Str
  path : Str
  params : Str
  query : Str
  fragment : Str
deriving DecidableEq, Repr

/-- Characters allowed in a URL scheme
(`urllib.parse.scheme_chars`: ASCII letters, digits, `+`, `-`, `.`). -/
def isSchemeChar (c : Char) : Bool :=
  c.isAlpha || c.isDigit || c = '+' || c = '-' || c = '.'

/-- Characters that terminate the netloc portion of a URL
(`urllib.parse._splitnetloc` stops at `/`, `?` or `#`). -/
def isNetlocDelim (c : Char) : Bool :=
  decide (c = '/') || decide (c = '?') || decide (c = '#')

/-- Model of `urllib.parse.urlsplit` (CPython; `allow_fragments=True`,
no default scheme).  The IPv6 bracket validation of CPython, which raises
on mismatched `[`/`]` in the netloc, is not modelled. -/
def urlsplitModel (url : Str) : ParseResult :=
  let schemeRest : Str × Str :=
    match breakAt ':' url with
    | some (bef, aft) =>
      if bef ≠ [] ∧ (bef.headD ' ').isAlpha ∧ bef.all isSchemeChar then
        (bef.map Char.toLower, aft)
      else ([], url)
    | none => ([], url)
  let scheme := schemeRest.1
  let rest := schemeRest.2
  let netlocRest : Str × Str :=
    if rest.take 2 = ['/', '/'] then
      ((rest.drop 2).takeWhile (fun c => !isNetlocDelim c),
       (rest.drop 2).dropWhile (fun c => !isNetlocDelim c))
    else ([], rest)
  let netloc := netlocRest.1
  let rest2 := netlocRest.2
  let pathFrag : Str × Str :=
    match breakAt '#' rest2 with
    | some (bef, aft) => (bef, aft)
    | none => (rest2, [])
  let pathQuery : Str × Str :=
    match breakAt '?' pathFrag.1 with
    | some (bef, aft) => (bef, aft)
    | none => (pathFrag.1, [])
  ⟨scheme, netloc, pathQuery.1, [], pathQuery.2, pathFrag.2⟩

/-- Schemes for which `urlparse` separates `;parameters` from the last
path segment (`urllib.parse.uses_params`, including the empty scheme). -/
def usesParams (s : Str) : Bool :=
  decide (s ∈ ([[], "ftp".toList, "hdl".toList, "prospero".toList,
    "http".toList, "imap".toList, "https".toList, "shttp".toList,
    "rtsp".toList, "rtspu".toList, "sip".toList, "sips".toList,
    "mms".toList, "sftp".toList, "tel".toList] : List Str))

/-- Model of `urllib.parse._splitparams`: split `;params` found after the
last `/` of the path (or anywhere when the path has no `/`). -/
def splitparamsModel (u : Str) : Str × Str :=
  match breakAt '/' u.reverse with
  | some (revAfter, revBefore) =>
    let pre : Str := revBefore.reverse ++ ['/']
    let suf : Str := revAfter.reverse
    match breakAt ';' suf with
    | some (b, a) => (pre ++ b, a)
    | none => (u, [])
  | none =>
    match breakAt ';' u with
    | some (b, a) => (b, a)
    | none => (u, [])

/-- Model of `urllib.parse.urlparse`: `urlsplit` followed by the
parameter split for the schemes in `uses_params`. -/
def urlparseModel (url : Str) : ParseResult :=
  let r := urlsplitModel url
  if usesParams r.scheme ∧ r.path.any (fun c => decide (c = ';')) then
    let pp := splitparamsModel r.path
    ⟨r.scheme, r.netloc, pp.1, pp.2, r.query, r.fragment⟩
  else r

/-- Model of a single step of `os.path.join` on POSIX: an absolute second
component discards the first; otherwise the parts are glued with `/`
unless the first part is empty or already ends with `/`. -/
def join2 (a b : Str) : Str :=
  if b.head? = some '/' then b
  else if a = [] then b
  else if a.getLast? = some '/' then a ++ b
  else a ++ '/' :: b

/-- Model of `pathlib.PurePosixPath(s).parts`: a root part `"/"` when the
path is absolute, followed by the non-empty, non-`"."` components.
(The POSIX double-slash root special case is not modelled.) -/
def pathParts (s : Str) : List Str :=
  (if s.head? = some '/' then [['/']] else []) ++
    (splitChar '/' s).filter (fun c => decide (¬(c = [] ∨ c = ['.'])))

/-- `generatePath` from `DataFetcherCache.cacheData`: the local file path
for a parsed URL, `os.path.join(data_location, scheme, netloc, path[1:])`
with `'?' + query` appended to the last component when the query is
non-empty. -/
def generatePath (dataLocation : Str) (u : ParseResult) : Str :=
  if u.query = [] then
    join2 (join2 (join2 dataLocation u.scheme) u.netloc) (u.path.drop 1)
  else
    join2 (join2 (join2 dataLocation u.scheme) u.netloc)
      (u.path.drop 1 ++ '?' :: u.query)

/-- `parseURL` from `DataFetcherCache.cacheData`: recover the URL that
produced a saved file.  The component of the path right after the
`data_location` components is the scheme (`file` maps back to
`file:///`), the remaining components re-joined with `/` are re-parsed by
`urlparse`.  Python indexes `path.parts` directly (raising on a path that
is too short); the model totalizes that index with an empty default. -/
def parseURL (dataLocation : Str) (inPath : Str) : ParseResult :=
  let k := (pathParts dataLocation).length
  let parts := pathParts inPath
  let accessType := parts.getD k []
  let accessStr :=
    if accessType = "file".toList then accessType ++ ":///".toList
    else accessType ++ "://".toList
  let tailParts := parts.drop (k + 1)
  let urlPath := if tailParts = [] then ['.'] else joinSep '/' tailParts
  urlparseModel (accessStr ++ urlPath)

/-- Code-point comparison of character lists, the order Python uses to
compare strings. -/
def strCmp : Str → Str → Ordering
  | [], [] => .eq
  | [], _ :: _ => .lt
  | _ :: _, [] => .gt
  | a :: as, b :: bs =>
    if a < b then .lt else if b < a then .gt else strCmp as bs

/-- Tuple-wise comparison of `ParseResult`s, the order used by
`missing_files.sort()` (Python compares the named tuples fieldwise). -/
def prCmp (u v : ParseResult) : Ordering :=
  match strCmp u.scheme v.scheme with
  | .lt => .lt | .gt => .gt
  | .eq =>
    match strCmp u.netloc v.netloc with
    | .lt => .lt | .gt => .gt
    | .eq =>
      match strCmp u.path v.path with
      | .lt => .lt | .gt => .gt
      | .eq =>
        match strCmp u.params v.params with
        | .lt => .lt | .gt => .gt
        | .eq =>
          match strCmp u.query v.query with
          | .lt => .lt | .gt => .gt
          | .eq => strCmp u.fragment v.fragment

/-- Non-strict tuple order on parsed URLs. -/
def prLE (u v : ParseResult) : Prop := prCmp u v ≠ .gt

instance : DecidableRel prLE := fun u v => by
  unfold prLE; infer_instance

/-- The filesystem: an association list from absolute paths to file
contents.  Only regular files are represented; directories are implicit. -/
abbrev FS := List (Str × Content)

/-- Look up the contents of the file at path `p`. -/
def lookupFS : FS → Str → Option Content
  | [], _ => none
  | (q, c) :: rest, p => if q = p then some c else lookupFS rest p

/-- Write contents `c` to path `p`, replacing any previous file there
(the effect of a completed `atomic_write(..., overwrite=True)`, and of
`open(p, 'a+b')` creating an empty file when `c = []`). -/
def fsSet (fs : FS) (p : Str) (c : Content) : FS :=
  (p, c) :: fs.filter (fun e => decide (e.1 ≠ p))

/-- `DataFetcherCache.checkIfDataExists`: open the file and read one
byte; `False` when the file does not exist (`FileNotFoundError`) or the
first read returns no bytes (empty file), `True` otherwise. -/
def checkIfDataExists (fs : FS) (p : Str) : Bool :=
  match lookupFS fs p with
  | none => false
  | some c => !c.isEmpty

/-- Whether `glob(os.path.join(data_location, '**'), recursive=True)`
lists the file at `p`: it lies strictly below the data location and none
of the components below it is hidden (glob does not match dotfiles). -/
def underRoot (dataLocation : Str) (p : Str) : Bool :=
  (dataLocation ++ ['/']).isPrefixOf p &&
    (splitChar '/' (p.drop (dataLocation.length + 1))).all
      (fun c => decide (c.head? ≠ some '.'))

/-- The set of already-cached URLs derived in `cacheData`: every
non-empty file found under the data location, mapped back through
`parseURL`. -/
def cachedList (dataLocation : Str) (fs : FS) : List ParseResult :=
  ((fs.map Prod.fst).filter
      (fun p => underRoot dataLocation p && checkIfDataExists fs p)).map
    (parseURL dataLocation)

/-- The sorted list of missing files computed by `cacheData`:
`list(set(parsed_http_paths).difference(downloaded_parsed_urls))` followed
by `missing_files.sort()` (modelled as an insertion sort over the tuple
order). -/
def missingList (dataLocation : Str) (onlinePathList : List Str) (fs : FS) :
    List ParseResult :=
  List.insertionSort prLE
    (((onlinePathList.map urlparseModel).dedup).filter
      (fun u => decide (u ∉ cachedList dataLocation fs)))

/-- Outcome of one network transfer for a URL: a complete body, a
response with an unauthorized status (carrying the error body the server
would stream), or a failure partway through the transfer. -/
inductive FetchOutcome where
  | ok (c : Content)
  | unauthorized (body : Content)
  | fail
deriving DecidableEq, Repr

/-- Errors raised by `cacheData`: the `ValueError` for incompatible
options, the `RuntimeError('Authorization Denied')` on a 401 with the
requests transport, and a transport exception mid-download (each carrying
the URL being fetched). -/
inductive CDError where
  | usageError
  | authDenied (u : ParseResult)
  | transferFail (u : ParseResult)
deriving DecidableEq, Repr

/-- The URL a `cacheData` error was raised for, when there is one. -/
def errorURL : CDError → Option ParseResult
  | .usageError => none
  | .authDenied u => some u
  | .transferFail u => some u

/-- One fetch of the body of `u`, dispatched as in the download loop:
with `use_requests` and credentials a 401 raises `Authorization Denied`;
with `use_requests` and no credentials the response body is streamed with
no status check; without `use_requests`, `urlopen` raises `HTTPError` on
an unauthorized status (a transport failure). -/
def doFetch (useRequests creds : Bool) (net : ParseResult → FetchOutcome)
    (u : ParseResult) : Except CDError Content :=
  if useRequests then
    if creds then
      match net u with
      | .ok c => .ok c
      | .unauthorized _ => .error (.authDenied u)
      | .fail => .error (.transferFail u)
    else
      match net u with
      | .ok c => .ok c
      | .unauthorized body => .ok body
      | .fail => .error (.transferFail u)
  else
    match net u with
    | .ok c => .ok c
    | .unauthorized _ => .error (.transferFail u)
    | .fail => .error (.transferFail u)

/-- The download loop of `cacheData` over the sorted missing URLs.  For
each URL: `open(out_filename, 'a+b')` creates an empty file when none
exists, the exclusive lock is taken, and if the file is still empty the
body is fetched and atomically written; a fetch error aborts the loop
(the atomic write never publishes a partial body, so the target keeps its
empty content).  Returns the outcome, the final filesystem, and the list
of URLs successfully downloaded. -/
def downloadLoop (dataLocation : Str) (useRequests creds : Bool)
    (net : ParseResult → FetchOutcome) :
    List ParseResult → FS → List ParseResult →
      Except CDError Unit × FS × List ParseResult
  | [], fs, acc => (.ok (), fs, acc)
  | u :: rest, fs, acc =>
    let out := generatePath dataLocation u
    let fs1 := if lookupFS fs out = none then fsSet fs out [] else fs
    if checkIfDataExists fs1 out then
      downloadLoop dataLocation useRequests creds net rest fs1 acc
    else
      match doFetch useRequests creds net u with
      | .error e => (.error e, fs1, acc)
      | .ok c =>
        downloadLoop dataLocation useRequests creds net rest
          (fsSet fs1 out c) (acc ++ [u])

instance instDecEqExcept {ε α : Type} [DecidableEq ε] [DecidableEq α] :
    DecidableEq (Except ε α) := fun a b =>
  match a, b with
  | .ok x, .ok y =>
    if h : x = y then isTrue (by rw [h])
    else isFalse (by intro hc; cases hc; exact h rfl)
  | .error x, .error y =>
    if h : x = y then isTrue (by rw [h])
    else isFalse (by intro hc; cases hc; exact h rfl)
  | .ok _, .error _ => isFalse (by intro hc; cases hc)
  | .error _, .ok _ => isFalse (by intro hc; cases hc)

/-- The observable outcome of one `cacheData` call: the returned path
list (or the error raised), the filesystem afterwards, and the URLs that
were downloaded. -/
structure CDRun where
  result : Except CDError (List Str)
  fs : FS
  downloads : List ParseResult
deriving DecidableEq, Repr

/-- `DataFetcherCache.cacheData`, with the data location already resolved
by the Location Registry: scan the cache root for non-empty files, map
them back to URLs, compute and sort the missing URLs, reject the
incompatible option combination when something must be fetched, download
the missing bodies, and return the local path of every requested URL in
the caller's order. -/
def cacheData (dataLocation : Str) (onlinePathList : List Str)
    (creds useRequests : Bool) (authenticationURL : Option Str)
    (net : ParseResult → FetchOutcome) (fs : FS) : CDRun :=
  let parsed := onlinePathList.map urlparseModel
  let paths := parsed.map (generatePath dataLocation)
  let missing := missingList dataLocation onlinePathList fs
  if missing = [] then ⟨.ok paths, fs, []⟩
  else if useRequests && authenticationURL.isSome then
    ⟨.error .usageError, fs, []⟩
  else
    match downloadLoop dataLocation useRequests creds net missing fs [] with
    | (.ok _, fs', dls) => ⟨.ok paths, fs', dls⟩
    | (.error e, fs', dls) => ⟨.error e, fs', dls⟩

/-- A well-behaved path component: non-empty and not `.` or hidden, so
`pathlib` preserves it and `glob` lists it. -/
def goodComp (c : Str) : Bool :=
  decide (c ≠ []) && decide (c.head? ≠ some '.')

/-- A scheme in the normal form `urlparse` produces: non-empty, leading
ASCII letter, scheme characters only, already lowercase. -/
def validSchemeStr (s : Str) : Bool :=
  decide (s ≠ []) && (s.headD ' ').isAlpha &&
    s.all (fun c => isSchemeChar c && decide (c.toLower = c))

/-- A well-behaved network location: non-empty, not hidden, free of the
characters that terminate the netloc scan of `urlparse`. -/
def goodNetloc (n : Str) : Bool :=
  decide (n ≠ []) && decide (n.head? ≠ some '.') &&
    n.all (fun c => !isNetlocDelim c)

/-- A well-behaved query string: free of `/` (which `pathlib` would split
on) and `#` (which `urlparse` would treat as a fragment separator). -/
def goodQuery (q : Str) : Bool :=
  q.all (fun c => !(decide (c = '/') || decide (c = '#')))

/-- A parsed URL on which the URL-to-path mapping is well behaved: a
normal non-`file` scheme, a well-behaved non-empty netloc, an absolute
path of well-behaved components, a well-behaved query, and no parameter
or fragment components (which `generatePath` ignores). -/
def GoodURL (u : ParseResult) : Bool :=
  validSchemeStr u.scheme && decide (u.scheme ≠ "file".toList) &&
    goodNetloc u.netloc &&
    decide (u.path.head? = some '/') &&
    (splitChar '/' (u.path.drop 1)).all goodComp &&
    u.path.all
      (fun c => !(decide (c = '?') || decide (c = '#') || decide (c = ';')))
      &&
    decide (u.params = []) && decide (u.fragment = []) &&
    goodQuery u.query

/-- A clean absolute cache-root path: absolute, no trailing slash, and no
empty or `.` components (so `pathlib` preserves its component count). -/
def cleanRoot (dataLocation : Str) : Bool :=
  decide (dataLocation.head? = some '/') &&
    decide (dataLocation.getLast? ≠ some '/') &&
    (splitChar '/' (dataLocation.drop 1)).all
      (fun c => decide (¬(c = [] ∨ c = ['.'])))

theorem lookupFS_fsSet_self (fs : FS) (p : Str) (c : Content) :
    lookupFS (fsSet fs p c) p = some c := by
  simp [fsSet, lookupFS]

theorem lookupFS_filter_ne (fs : FS) (p q : Str) (h : q ≠ p) :
    lookupFS (fs.filter (fun e => decide (e.1 ≠ p))) q = lookupFS fs q := by
  induction fs with
  | nil => rfl
  | cons e rest ih =>
    obtain ⟨a, c⟩ := e
    by_cases hap : a = p
    · subst hap
      have haq : a ≠ q := fun hc => h (hc ▸ rfl)
      have hd : decide (a ≠ a) = false := by simp
      simp only [List.filter_cons, hd, Bool.false_eq_true, if_false,
        lookupFS, if_neg haq]
      exact ih
    · have hd : decide (a ≠ p) = true := by simpa using hap
      simp only [List.filter_cons, hd, if_true, lookupFS]
      by_cases haq : a = q
      · simp [haq]
      · simp only [if_neg haq]
        exact ih

theorem lookupFS_fsSet_ne (fs : FS) (p : Str) (c : Content) (q : Str)
    (h : q ≠ p) : lookupFS (fsSet fs p c) q = lookupFS fs q := by
  have hpq : p ≠ q := fun hc => h (hc ▸ rfl)
  simp only [fsSet, lookupFS, if_neg hpq]
  exact lookupFS_filter_ne fs p q h

theorem checkIfDataExists_iff (fs : FS) (p : Str) :
    checkIfDataExists fs p = true ↔
      ∃ c, lookupFS fs p = some c ∧ c ≠ [] := by
  unfold checkIfDataExists
  cases hl : lookupFS fs p with
  | none => simp
  | some c => simp [List.isEmpty_iff]

theorem mem_fst_fsSet_of_mem (fs : FS) (p : Str) (c : Content) (q : Str)
    (h : q ∈ fs.map Prod.fst) : q ∈ (fsSet fs p c).map Prod.fst := by
  rcases eq_or_ne q p with rfl | hqp
  · simp [fsSet]
  · simp only [fsSet, List.map_cons, List.mem_cons]
    right
    simp only [List.mem_map] at h ⊢
    obtain ⟨e, he, rfl⟩ := h
    exact ⟨e, List.mem_filter.mpr ⟨he, by simpa using hqp⟩, rfl⟩

theorem doFetch_ok (useRequests creds : Bool)
    (net : ParseResult → FetchOutcome) (u : ParseResult) (c : Content)
    (h : net u = .ok c) : doFetch useRequests creds net u = .ok c := by
  unfold doFetch
  split_ifs <;> rw [h]

theorem doFetch_error_url (useRequests creds : Bool)
    (net : ParseResult → FetchOutcome) (u : ParseResult) (e : CDError)
    (h : doFetch useRequests creds net u = .error e) :
    errorURL e = some u := by
  unfold doFetch at h
  split_ifs at h <;> (cases hn : net u <;> rw [hn] at h <;> cases h <;> rfl)

theorem downloadLoop_cons (dataLocation : Str) (ur cr : Bool)
    (net : ParseResult → FetchOutcome) (u : ParseResult)
    (rest : List ParseResult) (fs : FS) (acc : List ParseResult) :
    downloadLoop dataLocation ur cr net (u :: rest) fs acc =
      (let out := generatePath dataLocation u
       let fs1 := if lookupFS fs out = none then fsSet fs out [] else fs
       if checkIfDataExists fs1 out then
         downloadLoop dataLocation ur cr net rest fs1 acc
       else
         match doFetch ur cr net u with
         | .error e => (.error e, fs1, acc)
         | .ok c =>
           downloadLoop dataLocation ur cr net rest (fsSet fs1 out c)
             (acc ++ [u])) := rfl

theorem lookupFS_createEmpty (fs : FS) (out p : Str) (c : Content)
    (h : lookupFS fs p = some c) :
    lookupFS (if lookupFS fs out = none then fsSet fs out [] else fs) p =
      some c := by
  split
  · next h0 =>
    have hpo : p ≠ out := by
      intro e; subst e; rw [h] at h0; cases h0
    rw [lookupFS_fsSet_ne fs out [] p hpo]; exact h
  · exact h

theorem downloadLoop_preserves (dataLocation : Str) (ur cr : Bool)
    (net : ParseResult → FetchOutcome) (l : List ParseResult) (fs : FS)
    (acc : List ParseResult) (p : Str) (c : Content) (hc : c ≠ [])
    (h : lookupFS fs p = some c) :
    lookupFS (downloadLoop dataLocation ur cr net l fs acc).2.1 p =
      some c := by
  induction l generalizing fs acc with
  | nil => exact h
  | cons u rest ih =>
    rw [downloadLoop_cons]
    simp only
    set out := generatePath dataLocation u with hout
    set fs1 := if lookupFS fs out = none then fsSet fs out [] else fs
      with hfs1
    have h1 : lookupFS fs1 p = some c := lookupFS_createEmpty fs out p c h
    by_cases hchk : checkIfDataExists fs1 out
    · rw [if_pos hchk]; exact ih fs1 acc h1
    · rw [if_neg hchk]
      cases hdf : doFetch ur cr net u with
      | error e => simpa using h1
      | ok c' =>
        have hpo : p ≠ out := by
          intro hpe; subst hpe
          exact hchk ((checkIfDataExists_iff fs1 out).mpr ⟨c, h1, hc⟩)
        exact ih _ _ (by rw [lookupFS_fsSet_ne fs1 out c' p hpo]; exact h1)

theorem checkIfDataExists_downloadLoop (dataLocation : Str) (ur cr : Bool)
    (net : ParseResult → FetchOutcome) (l : List ParseResult) (fs : FS)
    (acc : List ParseResult) (p : Str)
    (h : checkIfDataExists fs p = true) :
    checkIfDataExists (downloadLoop dataLocation ur cr net l fs acc).2.1
      p = true := by
  obtain ⟨c, hl, hc⟩ := (checkIfDataExists_iff fs p).mp h
  exact (checkIfDataExists_iff _ p).mpr
    ⟨c, downloadLoop_preserves dataLocation ur cr net l fs acc p c hc hl, hc⟩

theorem downloadLoop_skip (dataLocation : Str) (ur cr : Bool)
    (net : ParseResult → FetchOutcome) (l : List ParseResult) (fs : FS)
    (acc : List ParseResult)
    (h : ∀ u ∈ l, checkIfDataExists fs (generatePath dataLocation u) = true) :
    downloadLoop dataLocation ur cr net l fs acc = (.ok (), fs, acc) := by
  induction l with
  | nil => rfl
  | cons u rest ih =>
    rw [downloadLoop_cons]
    simp only
    have hu := h u (List.mem_cons_self u rest)
    obtain ⟨c, hl, hc⟩ :=
      (checkIfDataExists_iff fs (generatePath dataLocation u)).mp hu
    have hfs1 :
        (if lookupFS fs (generatePath dataLocation u) = none then
            fsSet fs (generatePath dataLocation u) [] else fs) = fs := by
      rw [if_neg]; rw [hl]; intro hx; cases hx
    rw [hfs1, if_pos hu]
    exact ih (fun v hv => h v (List.mem_cons_of_mem u hv))

theorem downloadLoop_ok (dataLocation : Str) (ur cr : Bool)
    (net : ParseResult → FetchOutcome) (l : List ParseResult)
    (hnet : ∀ u ∈ l, ∃ c, c ≠ [] ∧ doFetch ur cr net u = .ok c) :
    ∀ fs acc,
      (downloadLoop dataLocation ur cr net l fs acc).1 = .ok () ∧
      ∀ u ∈ l,
        checkIfDataExists (downloadLoop dataLocation ur cr net l fs acc).2.1
          (generatePath dataLocation u) = true := by
  induction l with
  | nil => exact fun fs acc => ⟨rfl, by simp⟩
  | cons v rest ih =>
    intro fs acc
    have hnetRest : ∀ u ∈ rest, ∃ c, c ≠ [] ∧ doFetch ur cr net u = .ok c :=
      fun u hu => hnet u (List.mem_cons_of_mem v hu)
    rw [downloadLoop_cons]
    simp only
    set out := generatePath dataLocation v with hout
    set fs1 := if lookupFS fs out = none then fsSet fs out [] else fs
      with hfs1
    by_cases hchk : checkIfDataExists fs1 out
    · rw [if_pos hchk]
      refine ⟨(ih hnetRest fs1 acc).1, ?_⟩
      intro u hu
      rcases List.mem_cons.mp hu with rfl | hu'
      · exact checkIfDataExists_downloadLoop dataLocation ur cr net rest fs1
          acc out hchk
      · exact (ih hnetRest fs1 acc).2 u hu'
    · rw [if_neg hchk]
      obtain ⟨c, hc, hdf⟩ := hnet v (List.mem_cons_self v rest)
      rw [hdf]
      refine ⟨(ih hnetRest (fsSet fs1 out c) (acc ++ [v])).1, ?_⟩
      intro u hu
      rcases List.mem_cons.mp hu with rfl | hu'
      · have : checkIfDataExists (fsSet fs1 out c) out = true :=
          (checkIfDataExists_iff _ out).mpr
            ⟨c, lookupFS_fsSet_self fs1 out c, hc⟩
        exact checkIfDataExists_downloadLoop dataLocation ur cr net rest
          (fsSet fs1 out c) (acc ++ [u]) out this
      · exact (ih hnetRest (fsSet fs1 out c) (acc ++ [v])).2 u hu'

theorem lookupFS_createEmpty_self (fs : FS) (out : Str) :
    lookupFS (if lookupFS fs out = none then fsSet fs out [] else fs) out ≠
      none := by
  split
  · next h0 => rw [lookupFS_fsSet_self]; intro hx; cases hx
  · next h0 => exact h0

theorem downloadLoop_error_target (dataLocation : Str) (ur cr : Bool)
    (net : ParseResult → FetchOutcome) (l : List ParseResult) (fs fs' : FS)
    (acc dls : List ParseResult) (e : CDError) (u : ParseResult)
    (hrun : downloadLoop dataLocation ur cr net l fs acc =
      (.error e, fs', dls))
    (hu : errorURL e = some u) :
    lookupFS fs' (generatePath dataLocation u) = some [] := by
  induction l generalizing fs acc with
  | nil => cases hrun
  | cons v rest ih =>
    rw [downloadLoop_cons] at hrun
    simp only at hrun
    set out := generatePath dataLocation v with hout
    set fs1 := if lookupFS fs out = none then fsSet fs out [] else fs
      with hfs1
    by_cases hchk : checkIfDataExists fs1 out
    · rw [if_pos hchk] at hrun
      exact ih fs1 acc hrun
    · rw [if_neg hchk] at hrun
      cases hdf : doFetch ur cr net v with
      | ok c =>
        rw [hdf] at hrun
        exact ih (fsSet fs1 out c) (acc ++ [v]) hrun
      | error e1 =>
        rw [hdf] at hrun
        injection hrun with h1 h2
        injection h2 with h2 h3
        cases h1
        have hv : u = v := by
          have hd := doFetch_error_url ur cr net v e hdf
          have hu2 := hu
          rw [hd] at hu2
          exact (Option.some.inj hu2).symm
        subst hv
        subst h2
        cases hl : lookupFS fs1 out with
        | none =>
          exfalso
          rw [hfs1] at hl
          exact lookupFS_createEmpty_self fs out hl
        | some c =>
          have hce : c = [] := by
            by_contra hcc
            exact hchk ((checkIfDataExists_iff fs1 out).mpr ⟨c, hl, hcc⟩)
          subst hce
          rfl

theorem downloadLoop_error_mem (dataLocation : Str) (ur cr : Bool)
    (net : ParseResult → FetchOutcome) (l : List ParseResult) (fs fs' : FS)
    (acc dls : List ParseResult) (e : CDError) (u : ParseResult)
    (hrun : downloadLoop dataLocation ur cr net l fs acc =
      (.error e, fs', dls))
    (hu : errorURL e = some u) : u ∈ l := by
  induction l generalizing fs acc with
  | nil => cases hrun
  | cons v rest ih =>
    rw [downloadLoop_cons] at hrun
    simp only at hrun
    set out := generatePath dataLocation v with hout
    set fs1 := if lookupFS fs out = none then fsSet fs out [] else fs
      with hfs1
    by_cases hchk : checkIfDataExists fs1 out
    · rw [if_pos hchk] at hrun
      exact List.mem_cons_of_mem v (ih fs1 acc hrun)
    · rw [if_neg hchk] at hrun
      cases hdf : doFetch ur cr net v with
      | ok c =>
        rw [hdf] at hrun
        exact List.mem_cons_of_mem v (ih (fsSet fs1 out c) (acc ++ [v]) hrun)
      | error e1 =>
        rw [hdf] at hrun
        injection hrun with h1 _
        cases h1
        have hd := doFetch_error_url ur cr net v e hdf
        rw [hu] at hd
        injection hd with h
        rw [← h]
        exact List.mem_cons_self u rest

theorem downloadLoop_error_not_downloaded (dataLocation : Str) (ur cr : Bool)
    (net : ParseResult → FetchOutcome) (l : List ParseResult) (fs' : FS)
    (dls : List ParseResult) (e : CDError) (u : ParseResult) :
    ∀ fs acc, l.Nodup → u ∉ acc →
      downloadLoop dataLocation ur cr net l fs acc = (.error e, fs', dls) →
      errorURL e = some u → u ∉ dls := by
  induction l with
  | nil => intro fs acc _ _ hrun _; cases hrun
  | cons v rest ih =>
    intro fs acc hnd hacc hrun hu
    rw [downloadLoop_cons] at hrun
    simp only at hrun
    set out := generatePath dataLocation v with hout
    set fs1 := if lookupFS fs out = none then fsSet fs out [] else fs
      with hfs1
    by_cases hchk : checkIfDataExists fs1 out
    · rw [if_pos hchk] at hrun
      exact ih fs1 acc (List.Nodup.of_cons hnd) hacc hrun hu
    · rw [if_neg hchk] at hrun
      cases hdf : doFetch ur cr net v with
      | ok c =>
        rw [hdf] at hrun
        have humem : u ∈ rest :=
          downloadLoop_error_mem dataLocation ur cr net rest (fsSet fs1 out c)
            fs' (acc ++ [v]) dls e u hrun hu
        have hvu : u ≠ v := by
          intro hx
          subst hx
          exact (List.nodup_cons.mp hnd).1 humem
        have hacc' : u ∉ acc ++ [v] := by
          intro hx
          rcases List.mem_append.mp hx with hx' | hx'
          · exact hacc hx'
          · exact hvu (List.mem_singleton.mp hx')
        exact ih (fsSet fs1 out c) (acc ++ [v]) (List.Nodup.of_cons hnd)
          hacc' hrun hu
      | error e1 =>
        rw [hdf] at hrun
        injection hrun with _ h2
        injection h2 with _ h3
        rw [← h3]
        exact hacc

theorem downloadLoop_downloads (dataLocation : Str) (ur cr : Bool)
    (net : ParseResult → FetchOutcome) (l : List ParseResult) :
    ∀ fs acc, ∃ t,
      (downloadLoop dataLocation ur cr net l fs acc).2.2 = acc ++ t ∧
        t.Sublist l := by
  induction l with
  | nil => exact fun fs acc => ⟨[], by simp [downloadLoop]⟩
  | cons v rest ih =>
    intro fs acc
    rw [downloadLoop_cons]
    simp only
    set out := generatePath dataLocation v with hout
    set fs1 := if lookupFS fs out = none then fsSet fs out [] else fs
      with hfs1
    by_cases hchk : checkIfDataExists fs1 out
    · rw [if_pos hchk]
      obtain ⟨t, ht, hs⟩ := ih fs1 acc
      exact ⟨t, ht, hs.cons v⟩
    · rw [if_neg hchk]
      cases hdf : doFetch ur cr net v with
      | error e => exact ⟨[], by simp, List.nil_sublist _⟩
      | ok c =>
        obtain ⟨t, ht, hs⟩ := ih (fsSet fs1 out c) (acc ++ [v])
        exact ⟨v :: t, by rw [ht, List.append_assoc]; rfl,
          List.Sublist.cons₂ v hs⟩

theorem mem_missingList_iff (dataLocation : Str) (inputs : List Str)
    (fs : FS) (u : ParseResult) :
    u ∈ missingList dataLocation inputs fs ↔
      u ∈ inputs.map urlparseModel ∧ u ∉ cachedList dataLocation fs := by
  unfold missingList
  rw [List.Perm.mem_iff (List.perm_insertionSort _ _)]
  simp [List.mem_filter, List.mem_dedup]

theorem nodup_missingList (dataLocation : Str) (inputs : List Str)
    (fs : FS) : (missingList dataLocation inputs fs).Nodup := by
  unfold missingList
  exact (List.Perm.nodup_iff (List.perm_insertionSort _ _)).mpr
    ((List.nodup_dedup _).filter _)

theorem mem_fst_downloadLoop (dataLocation : Str) (ur cr : Bool)
    (net : ParseResult → FetchOutcome) (l : List ParseResult) :
    ∀ fs acc (p : Str), p ∈ fs.map Prod.fst →
      p ∈ ((downloadLoop dataLocation ur cr net l fs acc).2.1).map
        Prod.fst := by
  induction l with
  | nil => intro fs acc p h; exact h
  | cons v rest ih =>
    intro fs acc p h
    rw [downloadLoop_cons]
    simp only
    set out := generatePath dataLocation v with hout
    set fs1 := if lookupFS fs out = none then fsSet fs out [] else fs
      with hfs1
    have h1 : p ∈ fs1.map Prod.fst := by
      rw [hfs1]
      split
      · exact mem_fst_fsSet_of_mem fs out [] p h
      · exact h
    by_cases hchk : checkIfDataExists fs1 out
    · rw [if_pos hchk]; exact ih fs1 acc p h1
    · rw [if_neg hchk]
      cases hdf : doFetch ur cr net v with
      | error e => simpa using h1
      | ok c => exact ih _ _ p (mem_fst_fsSet_of_mem fs1 out c p h1)

theorem cachedList_mono_downloadLoop (dataLocation : Str) (ur cr : Bool)
    (net : ParseResult → FetchOutcome) (l : List ParseResult) (fs : FS)
    (acc : List ParseResult) (u : ParseResult)
    (h : u ∈ cachedList dataLocation fs) :
    u ∈ cachedList dataLocation
      (downloadLoop dataLocation ur cr net l fs acc).2.1 := by
  unfold cachedList at h ⊢
  rw [List.mem_map] at h ⊢
  obtain ⟨p, hp, hpu⟩ := h
  rw [List.mem_filter] at hp
  obtain ⟨hmem, hpred⟩ := hp
  rw [Bool.and_eq_true] at hpred
  obtain ⟨hur, hck⟩ := hpred
  refine ⟨p, List.mem_filter.mpr
    ⟨mem_fst_downloadLoop dataLocation ur cr net l fs acc p hmem, ?_⟩, hpu⟩
  rw [Bool.and_eq_true]
  exact ⟨hur,
    checkIfDataExists_downloadLoop dataLocation ur cr net l fs acc p hck⟩

theorem cacheData_of_no_missing (dataLocation : Str) (inputs : List Str)
    (creds ur : Bool) (authURL : Option Str)
    (net : ParseResult → FetchOutcome) (fs : FS)
    (h : missingList dataLocation inputs fs = []) :
    cacheData dataLocation inputs creds ur authURL net fs =
      ⟨.ok ((inputs.map urlparseModel).map (generatePath dataLocation)),
        fs, []⟩ := by
  unfold cacheData
  rw [if_pos h]

theorem cacheData_usage (dataLocation : Str) (inputs : List Str)
    (creds ur : Bool) (authURL : Option Str)
    (net : ParseResult → FetchOutcome) (fs : FS)
    (h : missingList dataLocation inputs fs ≠ [])
    (h2 : (ur && authURL.isSome) = true) :
    cacheData dataLocation inputs creds ur authURL net fs =
      ⟨.error .usageError, fs, []⟩ := by
  unfold cacheData
  rw [if_neg h, if_pos h2]

theorem cacheData_download (dataLocation : Str) (inputs : List Str)
    (creds ur : Bool) (authURL : Option Str)
    (net : ParseResult → FetchOutcome) (fs : FS)
    (h : missingList dataLocation inputs fs ≠ [])
    (h2 : (ur && authURL.isSome) = false) :
    cacheData dataLocation inputs creds ur authURL net fs =
      (match downloadLoop dataLocation ur creds net
          (missingList dataLocation inputs fs) fs [] with
        | (.ok _, fs', dls) =>
          ⟨.ok ((inputs.map urlparseModel).map (generatePath dataLocation)),
            fs', dls⟩
        | (.error e, fs', dls) => ⟨.error e, fs', dls⟩) := by
  unfold cacheData
  rw [if_neg h, if_neg (by rw [h2]; simp)]

theorem cacheData_download_ok (dataLocation : Str) (inputs : List Str)
    (creds ur : Bool) (authURL : Option Str)
    (net : ParseResult → FetchOutcome) (fs : FS)
    (h : missingList dataLocation inputs fs ≠ [])
    (h2 : (ur && authURL.isSome) = false)
    (h3 : (downloadLoop dataLocation ur creds net
      (missingList dataLocation inputs fs) fs []).1 = .ok ()) :
    cacheData dataLocation inputs creds ur authURL net fs =
      ⟨.ok ((inputs.map urlparseModel).map (generatePath dataLocation)),
        (downloadLoop dataLocation ur creds net
          (missingList dataLocation inputs fs) fs []).2.1,
        (downloadLoop dataLocation ur creds net
          (missingList dataLocation inputs fs) fs []).2.2⟩ := by
  rw [cacheData_download dataLocation inputs creds ur authURL net fs h h2]
  rcases hloop : downloadLoop dataLocation ur creds net
    (missingList dataLocation inputs fs) fs [] with ⟨res, fs2, dls⟩
  rw [hloop] at h3
  cases res with
  | ok w => rfl
  | error e => cases h3

/-- Claim C4 (confirmed): order preservation — whenever `cacheData` returns
a path list, that list has the same length as the input URL list and its
`i`-th element is the generated local path of the `i`-th input URL,
regardless of which URLs were already cached and of the internal
(sorted) download order. -/
theorem claim4_order_preservation (dataLocation : Str) (inputs : List Str)
    (creds ur : Bool) (authURL : Option Str)
    (net : ParseResult → FetchOutcome) (fs : FS) (ps : List Str)
    (h : (cacheData dataLocation inputs creds ur authURL net fs).result =
      .ok ps) :
    ps = inputs.map (fun s => generatePath dataLocation (urlparseModel s)) ∧
    ps.length = inputs.length := by
  have hps : ps =
      (inputs.map urlparseModel).map (generatePath dataLocation) := by
    by_cases hm : missingList dataLocation inputs fs = []
    · rw [cacheData_of_no_missing dataLocation inputs creds ur authURL net
        fs hm] at h
      exact (Except.ok.inj h).symm
    · cases hb : (ur && authURL.isSome) with
      | true =>
        rw [cacheData_usage dataLocation inputs creds ur authURL net fs hm
          hb] at h
        cases h
      | false =>
        rw [cacheData_download dataLocation inputs creds ur authURL net fs
          hm hb] at h
        rcases hloop : downloadLoop dataLocation ur creds net
          (missingList dataLocation inputs fs) fs [] with ⟨res, fs2, dls⟩
        rw [hloop] at h
        cases res with
        | ok w => exact (Except.ok.inj h).symm
        | error e => cases h
  constructor
  · rw [hps, List.map_map]
    rfl
  · rw [hps]
    simp

theorem claim4_witness :
    ["/cache/http/example.org/a".toList] =
      (["http://example.org/a".toList]).map
        (fun s => generatePath ("/cache".toList) (urlparseModel s)) ∧
    (["/cache/http/example.org/a".toList] : List Str).length =
      (["http://example.org/a".toList] : List Str).length :=
  claim4_order_preservation ("/cache".toList)
    ["http://example.org/a".toList] false false none (fun _ => .ok [7]) []
    ["/cache/http/example.org/a".toList] (by decide)

/-- Claim C7 (corrected): when `use_requests` is combined with an
`authentication_url` *and at least one requested URL is missing from the
cache*, `cacheData` raises the usage `ValueError` before any download and
leaves the filesystem untouched.  (When nothing is missing the option
check is skipped entirely — see the counterexample.) -/
theorem claim7_usage_error (dataLocation : Str) (inputs : List Str)
    (creds : Bool) (a : Str) (net : ParseResult → FetchOutcome) (fs : FS)
    (h : missingList dataLocation inputs fs ≠ []) :
    (cacheData dataLocation inputs creds true (some a) net fs).result =
      .error .usageError ∧
    (cacheData dataLocation inputs creds true (some a) net fs).downloads =
      [] ∧
    (cacheData dataLocation inputs creds true (some a) net fs).fs = fs := by
  rw [cacheData_usage dataLocation inputs creds true (some a) net fs h
    (by simp)]
  exact ⟨rfl, rfl, rfl⟩

theorem claim7_witness :
    (cacheData ("/cache".toList) ["http://example.org/a".toList] false true
        (some ("http://auth".toList)) (fun _ => .ok [7]) []).result =
      .error .usageError ∧
    (cacheData ("/cache".toList) ["http://example.org/a".toList] false true
        (some ("http://auth".toList)) (fun _ => .ok [7]) []).downloads =
      [] ∧
    (cacheData ("/cache".toList) ["http://example.org/a".toList] false true
        (some ("http://auth".toList)) (fun _ => .ok [7]) []).fs = [] :=
  claim7_usage_error ("/cache".toList) ["http://example.org/a".toList]
    false ("http://auth".toList) (fun _ => .ok [7]) [] (by decide)

/-- Claim C7 counterexample: with every requested URL already cached, a
call that supplies both `use_requests` and an `authentication_url`
returns normally instead of being rejected — the option check only runs
when files are missing. -/
theorem claim7_counterexample :
    (cacheData ("/cache".toList) ["http://example.org/a".toList] false true
        (some ("http://auth".toList)) (fun _ => .ok [7])
        [("/cache/http/example.org/a".toList, [5])]).result =
      .ok ["/cache/http/example.org/a".toList] := by
  decide

/-- Claim C5 (confirmed): atomicity on a failed transfer — when `cacheData`
raises because the transport failed while fetching `u`, the file at `u`'s
target path afterwards either does not exist or is empty (never a
truncated body), the presence check rejects it, and — unless some other
cached file happens to map back to `u` — a subsequent call with `u`
among its inputs classifies `u` as missing again. -/
theorem claim5_transfer_fail_atomic (dataLocation : Str)
    (inputs : List Str) (creds ur : Bool) (authURL : Option Str)
    (net : ParseResult → FetchOutcome) (fs : FS) (u : ParseResult)
    (h : (cacheData dataLocation inputs creds ur authURL net fs).result =
      .error (.transferFail u)) :
    (lookupFS (cacheData dataLocation inputs creds ur authURL net fs).fs
        (generatePath dataLocation u) = none ∨
      lookupFS (cacheData dataLocation inputs creds ur authURL net fs).fs
        (generatePath dataLocation u) = some []) ∧
    checkIfDataExists
      (cacheData dataLocation inputs creds ur authURL net fs).fs
      (generatePath dataLocation u) = false ∧
    (u ∉ cachedList dataLocation
        (cacheData dataLocation inputs creds ur authURL net fs).fs →
      u ∈ missingList dataLocation inputs
        (cacheData dataLocation inputs creds ur authURL net fs).fs) := by
  by_cases hm : missingList dataLocation inputs fs = []
  · rw [cacheData_of_no_missing dataLocation inputs creds ur authURL net fs
      hm] at h
    cases h
  · cases hb : (ur && authURL.isSome) with
    | true =>
      rw [cacheData_usage dataLocation inputs creds ur authURL net fs hm
        hb] at h
      injection h with h1
      cases h1
    | false =>
      have hcd := cacheData_download dataLocation inputs creds ur authURL
        net fs hm hb
      rcases hloop : downloadLoop dataLocation ur creds net
        (missingList dataLocation inputs fs) fs [] with ⟨res, fs2, dls⟩
      rw [hloop] at hcd
      rw [hcd] at h ⊢
      cases res with
      | ok w => cases h
      | error e =>
        injection h with h1
        have he : e = .transferFail u := h1
        subst he
        have hloop2 : downloadLoop dataLocation ur creds net
            (missingList dataLocation inputs fs) fs [] =
            (.error (.transferFail u), fs2, dls) := hloop
        have hlook : lookupFS fs2 (generatePath dataLocation u) = some [] :=
          downloadLoop_error_target dataLocation ur creds net
            (missingList dataLocation inputs fs) fs fs2 [] dls
            (.transferFail u) u hloop2 rfl
        have hmem : u ∈ missingList dataLocation inputs fs :=
          downloadLoop_error_mem dataLocation ur creds net
            (missingList dataLocation inputs fs) fs fs2 [] dls
            (.transferFail u) u hloop2 rfl
        have hparsed : u ∈ inputs.map urlparseModel :=
          ((mem_missingList_iff dataLocation inputs fs u).mp hmem).1
        refine ⟨Or.inr hlook, ?_, ?_⟩
        · simp [checkIfDataExists, hlook]
        · intro hnc
          exact (mem_missingList_iff dataLocation inputs fs2 u).mpr
            ⟨hparsed, hnc⟩

theorem claim5_witness :
    (lookupFS (cacheData ("/cache".toList) ["http://example.org/a".toList]
          false false none (fun _ => .fail) []).fs
        (generatePath ("/cache".toList)
          (urlparseModel ("http://example.org/a".toList))) = none ∨
      lookupFS (cacheData ("/cache".toList)
          ["http://example.org/a".toList] false false none (fun _ => .fail)
          []).fs
        (generatePath ("/cache".toList)
          (urlparseModel ("http://example.org/a".toList))) = some []) ∧
    checkIfDataExists
      (cacheData ("/cache".toList) ["http://example.org/a".toList] false
        false none (fun _ => .fail) []).fs
      (generatePath ("/cache".toList)
        (urlparseModel ("http://example.org/a".toList))) = false ∧
    (urlparseModel ("http://example.org/a".toList) ∉ cachedList
        ("/cache".toList)
        (cacheData ("/cache".toList) ["http://example.org/a".toList] false
          false none (fun _ => .fail) []).fs →
      urlparseModel ("http://example.org/a".toList) ∈ missingList
        ("/cache".toList) ["http://example.org/a".toList]
        (cacheData ("/cache".toList) ["http://example.org/a".toList] false
          false none (fun _ => .fail) []).fs) :=
  claim5_transfer_fail_atomic ("/cache".toList)
    ["http://example.org/a".toList] false false none (fun _ => .fail) []
    (urlparseModel ("http://example.org/a".toList)) (by decide)

/-- Claim C8 (corrected): authentication failure with the session transport
— when the server answers the credentialed request with a 401,
`cacheData` raises `Authorization Denied` after a single attempt (the
denied URL is never in the downloaded list), and no *non-empty* file
exists at the target path afterwards: the target is absent or an empty
file.  (A zero-byte lock file *is* created by `open(..., 'a+b')`, so the
claim's "no file is created" is too strong — see the counterexample.) -/
theorem claim8_auth_denied (dataLocation : Str) (inputs : List Str)
    (creds ur : Bool) (authURL : Option Str)
    (net : ParseResult → FetchOutcome) (fs : FS) (u : ParseResult)
    (h : (cacheData dataLocation inputs creds ur authURL net fs).result =
      .error (.authDenied u)) :
    (lookupFS (cacheData dataLocation inputs creds ur authURL net fs).fs
        (generatePath dataLocation u) = none ∨
      lookupFS (cacheData dataLocation inputs creds ur authURL net fs).fs
        (generatePath dataLocation u) = some []) ∧
    checkIfDataExists
      (cacheData dataLocation inputs creds ur authURL net fs).fs
      (generatePath dataLocation u) = false ∧
    u ∉ (cacheData dataLocation inputs creds ur authURL net fs).downloads
    := by
  by_cases hm : missingList dataLocation inputs fs = []
  · rw [cacheData_of_no_missing dataLocation inputs creds ur authURL net fs
      hm] at h
    cases h
  · cases hb : (ur && authURL.isSome) with
    | true =>
      rw [cacheData_usage dataLocation inputs creds ur authURL net fs hm
        hb] at h
      injection h with h1
      cases h1
    | false =>
      have hcd := cacheData_download dataLocation inputs creds ur authURL
        net fs hm hb
      rcases hloop : downloadLoop dataLocation ur creds net
        (missingList dataLocation inputs fs) fs [] with ⟨res, fs2, dls⟩
      rw [hloop] at hcd
      rw [hcd] at h ⊢
      cases res with
      | ok w => cases h
      | error e =>
        injection h with h1
        have he : e = .authDenied u := h1
        subst he
        have hloop2 : downloadLoop dataLocation ur creds net
            (missingList dataLocation inputs fs) fs [] =
            (.error (.authDenied u), fs2, dls) := hloop
        have hlook : lookupFS fs2 (generatePath dataLocation u) = some [] :=
          downloadLoop_error_target dataLocation ur creds net
            (missingList dataLocation inputs fs) fs fs2 [] dls
            (.authDenied u) u hloop2 rfl
        refine ⟨Or.inr hlook, by simp [checkIfDataExists, hlook], ?_⟩
        exact downloadLoop_error_not_downloaded dataLocation ur creds net
          (missingList dataLocation inputs fs) fs2 dls (.authDenied u) u fs
          [] (nodup_missingList dataLocation inputs fs)
          (List.not_mem_nil u) hloop2 rfl

theorem claim8_witness :
    (lookupFS (cacheData ("/cache".toList) ["http://example.org/a".toList]
          true true none (fun _ => .unauthorized [9]) []).fs
        (generatePath ("/cache".toList)
          (urlparseModel ("http://example.org/a".toList))) = none ∨
      lookupFS (cacheData ("/cache".toList)
          ["http://example.org/a".toList] true true none
          (fun _ => .unauthorized [9]) []).fs
        (generatePath ("/cache".toList)
          (urlparseModel ("http://example.org/a".toList))) = some []) ∧
    checkIfDataExists
      (cacheData ("/cache".toList) ["http://example.org/a".toList] true
        true none (fun _ => .unauthorized [9]) []).fs
      (generatePath ("/cache".toList)
        (urlparseModel ("http://example.org/a".toList))) = false ∧
    urlparseModel ("http://example.org/a".toList) ∉
      (cacheData ("/cache".toList) ["http://example.org/a".toList] true
        true none (fun _ => .unauthorized [9]) []).downloads :=
  claim8_auth_denied ("/cache".toList) ["http://example.org/a".toList]
    true true none (fun _ => .unauthorized [9]) []
    (urlparseModel ("http://example.org/a".toList)) (by decide)

/-- Claim C8 counterexample: after the `Authorization Denied` failure a
zero-byte file *does* exist at the URL's target path — the
`open(out_filename, 'a+b')` lock acquisition created it — so the claim's
"no file is created at the URL's target path" does not hold literally. -/
theorem claim8_counterexample :
    (cacheData ("/cache".toList) ["http://example.org/a".toList] true true
        none (fun _ => .unauthorized [9]) []).result =
      .error (.authDenied (urlparseModel ("http://example.org/a".toList))) ∧
    lookupFS (cacheData ("/cache".toList) ["http://example.org/a".toList]
        true true none (fun _ => .unauthorized [9]) []).fs
      ("/cache/http/example.org/a".toList) ≠ none := by
  decide

/-- Claim C9 (confirmed): duplicate URLs — in every `cacheData` run the
list of downloaded URLs has no duplicates (each distinct parsed URL is
fetched at most once, because the missing set is a deduplicated set
difference), and whenever a path list is returned, positions holding
equal input URLs hold equal output paths, so `[u, u]` yields
`[path(u), path(u)]` with at most one download of `u`. -/
theorem claim9_duplicates (dataLocation : Str) (inputs : List Str)
    (creds ur : Bool) (authURL : Option Str)
    (net : ParseResult → FetchOutcome) (fs : FS) :
    (cacheData dataLocation inputs creds ur authURL net fs).downloads.Nodup
      ∧
    ∀ ps, (cacheData dataLocation inputs creds ur authURL net fs).result =
        .ok ps →
      ∀ i j : Nat, inputs.get? i = inputs.get? j →
        ps.get? i = ps.get? j := by
  have hpaths : ∀ ps,
      ps = (inputs.map urlparseModel).map (generatePath dataLocation) →
      ∀ i j : Nat, inputs.get? i = inputs.get? j →
        ps.get? i = ps.get? j := by
    intro ps hps i j hij
    rw [hps, List.map_map]
    rw [List.get?_map, List.get?_map, hij]
  by_cases hm : missingList dataLocation inputs fs = []
  · rw [cacheData_of_no_missing dataLocation inputs creds ur authURL net fs
      hm]
    refine ⟨List.nodup_nil, ?_⟩
    intro ps hps
    exact hpaths ps (Except.ok.inj hps).symm
  · cases hb : (ur && authURL.isSome) with
    | true =>
      rw [cacheData_usage dataLocation inputs creds ur authURL net fs hm hb]
      refine ⟨List.nodup_nil, ?_⟩
      intro ps hps
      cases hps
    | false =>
      rw [cacheData_download dataLocation inputs creds ur authURL net fs hm
        hb]
      rcases hloop : downloadLoop dataLocation ur creds net
        (missingList dataLocation inputs fs) fs [] with ⟨res, fs2, dls⟩
      have hdl : dls.Nodup := by
        obtain ⟨t, ht, hsub⟩ := downloadLoop_downloads dataLocation ur
          creds net (missingList dataLocation inputs fs) fs []
        rw [hloop] at ht
        simp only [List.nil_append] at ht
        rw [ht]
        exact (nodup_missingList dataLocation inputs fs).sublist hsub
      cases res with
      | ok w =>
        refine ⟨hdl, ?_⟩
        intro ps hps
        exact hpaths ps (Except.ok.inj hps).symm
      | error e =>
        refine ⟨hdl, ?_⟩
        intro ps hps
        cases hps

theorem claim9_witness :
    (cacheData ("/cache".toList)
      ["http://example.org/a".toList, "http://example.org/a".toList] false
      false none (fun _ => .ok [7]) []).downloads.Nodup ∧
    (["/cache/http/example.org/a".toList,
        "/cache/http/example.org/a".toList] : List Str).get? 0 =
      (["/cache/http/example.org/a".toList,
        "/cache/http/example.org/a".toList] : List Str).get? 1 :=
  ⟨(claim9_duplicates ("/cache".toList)
      ["http://example.org/a".toList, "http://example.org/a".toList] false
      false none (fun _ => .ok [7]) []).1,
    (claim9_duplicates ("/cache".toList)
      ["http://example.org/a".toList, "http://example.org/a".toList] false
      false none (fun _ => .ok [7]) []).2
      ["/cache/http/example.org/a".toList,
        "/cache/http/example.org/a".toList] (by decide) 0 1 (by decide)⟩

/-- Claim C6 (confirmed): the presence check — `checkIfDataExists` holds
exactly for an openable file with non-empty content (it is `False` for a
missing file and for an empty file); only such files contribute URLs to
the already-cached set of the `cacheData` scan; and every requested URL
not in that set is scheduled for download (it appears in the sorted
missing list). -/
theorem claim6_presence_check :
    (∀ (fs : FS) (p : Str), checkIfDataExists fs p = true ↔
      ∃ c, lookupFS fs p = some c ∧ c ≠ []) ∧
    (∀ (dataLocation : Str) (fs : FS) (u : ParseResult),
      u ∈ cachedList dataLocation fs →
      ∃ p c, lookupFS fs p = some c ∧ c ≠ [] ∧
        parseURL dataLocation p = u) ∧
    (∀ (dataLocation : Str) (inputs : List Str) (fs : FS) (s : Str),
      s ∈ inputs → urlparseModel s ∉ cachedList dataLocation fs →
      urlparseModel s ∈ missingList dataLocation inputs fs) := by
  refine ⟨checkIfDataExists_iff, ?_, ?_⟩
  · intro dataLocation fs u h
    unfold cachedList at h
    rw [List.mem_map] at h
    obtain ⟨p, hp, hpu⟩ := h
    rw [List.mem_filter] at hp
    obtain ⟨hmem, hpred⟩ := hp
    rw [Bool.and_eq_true] at hpred
    obtain ⟨c, hl, hc⟩ := (checkIfDataExists_iff fs p).mp hpred.2
    exact ⟨p, c, hl, hc, hpu⟩
  · intro dataLocation inputs fs s hs hnot
    exact (mem_missingList_iff dataLocation inputs fs
      (urlparseModel s)).mpr ⟨List.mem_map_of_mem urlparseModel hs, hnot⟩

theorem claim6_witness :
    (checkIfDataExists [(("/cache/http/example.org/a").toList,
        ([] : Content))] ("/cache/http/example.org/a".toList) = true ↔
      ∃ c, lookupFS [(("/cache/http/example.org/a").toList,
        ([] : Content))] ("/cache/http/example.org/a".toList) = some c ∧
        c ≠ []) ∧
    urlparseModel ("http://example.org/a".toList) ∈
      missingList ("/cache".toList) ["http://example.org/a".toList]
        [(("/cache/http/example.org/a").toList, ([] : Content))] :=
  ⟨claim6_presence_check.1 _ _,
    claim6_presence_check.2.2 ("/cache".toList)
      ["http://example.org/a".toList]
      [(("/cache/http/example.org/a").toList, ([] : Content))]
      ("http://example.org/a".toList) (by decide) (by decide)⟩

theorem missingList_singleton_of_not_cached (dataLocation : Str) (s : Str)
    (fs : FS) (h : urlparseModel s ∉ cachedList dataLocation fs) :
    missingList dataLocation [s] fs = [urlparseModel s] := by
  unfold missingList
  simp [List.insertionSort, List.orderedInsert, h]

theorem cachedList_single_empty (dataLocation out : Str) :
    cachedList dataLocation [(out, ([] : Content))] = [] := by
  simp [cachedList, checkIfDataExists, lookupFS]

theorem checkIfDataExists_fsSet_self (fs : FS) (p : Str) (c : Content) :
    checkIfDataExists (fsSet fs p c) p = !c.isEmpty := by
  unfold checkIfDataExists
  rw [lookupFS_fsSet_self]

theorem fsSet_fsSet (fs : FS) (p : Str) (c d : Content) :
    fsSet (fsSet fs p c) p d = fsSet fs p d := by
  simp [fsSet, List.filter_cons, List.filter_filter]

theorem downloadLoop_empty_body (dataLocation : Str)
    (net : ParseResult → FetchOutcome) (u : ParseResult) (fs : FS)
    (hnet : net u = .ok [])
    (hfs : lookupFS fs (generatePath dataLocation u) = none ∨
      lookupFS fs (generatePath dataLocation u) = some []) :
    downloadLoop dataLocation false false net [u] fs [] =
      (.ok (), fsSet fs (generatePath dataLocation u) [], [u]) := by
  rw [downloadLoop_cons]
  rcases hfs with hfs | hfs
  · simp [hfs, checkIfDataExists_fsSet_self, doFetch, hnet, downloadLoop,
      fsSet_fsSet]
  · have hne : ¬(lookupFS fs (generatePath dataLocation u) = none) := by
      rw [hfs]; intro hx; cases hx
    simp [hfs, hne, checkIfDataExists, doFetch, hnet, downloadLoop]

/-- Claim C10 (confirmed): empty remote content is never cached — when the
transfer of a URL succeeds but delivers zero bytes, the completed
download leaves an empty file at the target path, the presence check
classifies it as absent, and a subsequent `cacheData` call for the same
URL downloads it again: the second-call-performs-zero-downloads property
does not extend to zero-byte content. -/
theorem claim10_empty_content (dataLocation : Str) (s : Str)
    (net : ParseResult → FetchOutcome)
    (hnet : net (urlparseModel s) = .ok []) :
    (cacheData dataLocation [s] false false none net []).result =
      .ok [generatePath dataLocation (urlparseModel s)] ∧
    lookupFS (cacheData dataLocation [s] false false none net []).fs
      (generatePath dataLocation (urlparseModel s)) = some [] ∧
    checkIfDataExists
      (cacheData dataLocation [s] false false none net []).fs
      (generatePath dataLocation (urlparseModel s)) = false ∧
    (cacheData dataLocation [s] false false none net
        (cacheData dataLocation [s] false false none net []).fs).downloads
      = [urlparseModel s] := by
  set u := urlparseModel s with hu
  set out := generatePath dataLocation u with hout
  have hc0 : u ∉ cachedList dataLocation [] := by
    rw [show cachedList dataLocation [] = [] from rfl]
    exact List.not_mem_nil u
  have hm1 : missingList dataLocation [s] [] = [u] :=
    missingList_singleton_of_not_cached dataLocation s [] hc0
  have hl1 : downloadLoop dataLocation false false net [u] [] [] =
      (.ok (), fsSet [] out [], [u]) :=
    downloadLoop_empty_body dataLocation net u [] hnet (Or.inl rfl)
  have hr1 : cacheData dataLocation [s] false false none net [] =
      ⟨.ok [out], fsSet [] out [], [u]⟩ := by
    rw [cacheData_download dataLocation [s] false false none net []
      (by rw [hm1]; intro hx; cases hx) rfl]
    rw [hm1, hl1]
    rfl
  have hfs1 : fsSet [] out [] = [(out, ([] : Content))] := rfl
  refine ⟨?_, ?_, ?_, ?_⟩
  · rw [hr1]
  · rw [hr1]
    exact lookupFS_fsSet_self [] out []
  · rw [hr1]
    rw [show (⟨.ok [out], fsSet [] out [], [u]⟩ : CDRun).fs =
      fsSet [] out [] from rfl]
    rw [checkIfDataExists_fsSet_self]
    rfl
  · rw [hr1]
    rw [show (⟨.ok [out], fsSet [] out [], [u]⟩ : CDRun).fs =
      fsSet [] out [] from rfl, hfs1]
    have hc2 : u ∉ cachedList dataLocation [(out, ([] : Content))] := by
      rw [cachedList_single_empty]
      exact List.not_mem_nil u
    have hm2 : missingList dataLocation [s] [(out, ([] : Content))] =
        [u] :=
      missingList_singleton_of_not_cached dataLocation s
        [(out, ([] : Content))] hc2
    have hl2 : downloadLoop dataLocation false false net [u]
        [(out, ([] : Content))] [] =
        (.ok (), fsSet [(out, ([] : Content))] out [], [u]) :=
      downloadLoop_empty_body dataLocation net u [(out, ([] : Content))]
        hnet (Or.inr (by simp [lookupFS]))
    rw [cacheData_download dataLocation [s] false false none net
      [(out, ([] : Content))] (by rw [hm2]; intro hx; cases hx) rfl]
    rw [hm2, hl2]

theorem claim10_witness :
    (cacheData ("/cache".toList) ["http://example.org/a".toList] false
        false none (fun _ => .ok []) []).result =
      .ok [generatePath ("/cache".toList)
        (urlparseModel ("http://example.org/a".toList))] ∧
    lookupFS (cacheData ("/cache".toList) ["http://example.org/a".toList]
        false false none (fun _ => .ok []) []).fs
      (generatePath ("/cache".toList)
        (urlparseModel ("http://example.org/a".toList))) = some [] ∧
    checkIfDataExists
      (cacheData ("/cache".toList) ["http://example.org/a".toList] false
        false none (fun _ => .ok []) []).fs
      (generatePath ("/cache".toList)
        (urlparseModel ("http://example.org/a".toList))) = false ∧
    (cacheData ("/cache".toList) ["http://example.org/a".toList] false
        false none (fun _ => .ok [])
        (cacheData ("/cache".toList) ["http://example.org/a".toList] false
          false none (fun _ => .ok []) []).fs).downloads =
      [urlparseModel ("http://example.org/a".toList)] :=
  claim10_empty_content ("/cache".toList) ("http://example.org/a".toList)
    (fun _ => .ok []) rfl

/-- Claim C1 (corrected): idempotence — for any two sequential `cacheData`
calls with the same arguments and no external mutation in between,
*provided each transfer delivers a non-empty body* (and the option
combination passes validation), the first call returns the generated path
of every input URL in order, and the second call performs zero downloads
and returns a path list identical to the first call's.  (The requested
URLs need not all be *classified* as already cached on the second call —
a URL carrying a fragment is classified as missing again — but the
in-loop lock check then finds its target file non-empty and skips the
download.) -/
theorem claim1_idempotent (dataLocation : Str) (inputs : List Str)
    (creds ur : Bool) (authURL : Option Str)
    (net : ParseResult → FetchOutcome) (fs : FS)
    (hflag : ur = true → authURL = none)
    (hnet : ∀ s ∈ inputs, ∃ c, c ≠ [] ∧ net (urlparseModel s) = .ok c) :
    (cacheData dataLocation inputs creds ur authURL net fs).result =
      .ok ((inputs.map urlparseModel).map (generatePath dataLocation)) ∧
    (cacheData dataLocation inputs creds ur authURL net
        (cacheData dataLocation inputs creds ur authURL net fs).fs
      ).downloads = [] ∧
    (cacheData dataLocation inputs creds ur authURL net
        (cacheData dataLocation inputs creds ur authURL net fs).fs
      ).result =
      (cacheData dataLocation inputs creds ur authURL net fs).result := by
  have hflagb : (ur && authURL.isSome) = false := by
    cases hur : ur
    · rfl
    · rw [hflag hur]
      rfl
  by_cases hm : missingList dataLocation inputs fs = []
  · have r1 := cacheData_of_no_missing dataLocation inputs creds ur authURL
      net fs hm
    simp [r1]
  · have hnet' : ∀ u ∈ missingList dataLocation inputs fs,
        ∃ c, c ≠ [] ∧ doFetch ur creds net u = .ok c := by
      intro u hu
      obtain ⟨hp, _⟩ := (mem_missingList_iff dataLocation inputs fs u).mp hu
      obtain ⟨s, hs, rfl⟩ := List.mem_map.mp hp
      obtain ⟨c, hc, hn⟩ := hnet s hs
      exact ⟨c, hc, doFetch_ok ur creds net _ c hn⟩
    have hloopok := downloadLoop_ok dataLocation ur creds net
      (missingList dataLocation inputs fs) hnet' fs []
    have r1 := cacheData_download_ok dataLocation inputs creds ur authURL
      net fs hm hflagb hloopok.1
    set fs2 := (downloadLoop dataLocation ur creds net
      (missingList dataLocation inputs fs) fs []).2.1 with hfs2
    have hr1fs :
        (cacheData dataLocation inputs creds ur authURL net fs).fs = fs2
        := by
      rw [r1]
    have hkey : ∀ u ∈ missingList dataLocation inputs fs2,
        checkIfDataExists fs2 (generatePath dataLocation u) = true := by
      intro u hu
      obtain ⟨hp, hnc⟩ :=
        (mem_missingList_iff dataLocation inputs fs2 u).mp hu
      have hnc1 : u ∉ cachedList dataLocation fs := by
        intro hc1
        exact hnc (cachedList_mono_downloadLoop dataLocation ur creds net
          (missingList dataLocation inputs fs) fs [] u hc1)
      have hu1 : u ∈ missingList dataLocation inputs fs :=
        (mem_missingList_iff dataLocation inputs fs u).mpr ⟨hp, hnc1⟩
      exact hloopok.2 u hu1
    have hsecond :
        cacheData dataLocation inputs creds ur authURL net fs2 =
          ⟨.ok ((inputs.map urlparseModel).map (generatePath dataLocation)),
            fs2, []⟩ := by
      by_cases hm2 : missingList dataLocation inputs fs2 = []
      · exact cacheData_of_no_missing dataLocation inputs creds ur authURL
          net fs2 hm2
      · have hskip : downloadLoop dataLocation ur creds net
            (missingList dataLocation inputs fs2) fs2 [] =
            (.ok (), fs2, []) :=
          downloadLoop_skip dataLocation ur creds net
            (missingList dataLocation inputs fs2) fs2 [] hkey
        rw [cacheData_download dataLocation inputs creds ur authURL net fs2
          hm2 hflagb, hskip]
    refine ⟨?_, ?_, ?_⟩
    · rw [r1]
    · rw [hr1fs, hsecond]
    · rw [hr1fs, hsecond, r1]

/-- Claim C1 counterexample: with the fragment-bearing URL
`http://example.org/a#f` and the URL `http://example.org/empty` whose
transfer delivers zero bytes, the second of two identical `cacheData`
calls downloads the zero-byte URL again (not zero downloads), and the
fragment URL is not classified as already cached on the second call. -/
theorem claim1_counterexample :
    (cacheData ("/cache".toList)
        ["http://example.org/a#f".toList, "http://example.org/empty".toList]
        false false none
        (fun u => if u.fragment = [] then .ok [] else .ok [7])
        (cacheData ("/cache".toList)
          ["http://example.org/a#f".toList,
            "http://example.org/empty".toList]
          false false none
          (fun u => if u.fragment = [] then .ok [] else .ok [7])
          []).fs).downloads ≠ [] ∧
    urlparseModel ("http://example.org/a#f".toList) ∉
      cachedList ("/cache".toList)
        (cacheData ("/cache".toList)
          ["http://example.org/a#f".toList,
            "http://example.org/empty".toList]
          false false none
          (fun u => if u.fragment = [] then .ok [] else .ok [7])
          []).fs := by
  decide

theorem claim1_witness :
    (cacheData ("/cache".toList) ["http://example.org/a".toList] false
        false none (fun _ => .ok [7]) []).result =
      .ok (((["http://example.org/a".toList] : List Str).map
        urlparseModel).map (generatePath ("/cache".toList))) ∧
    (cacheData ("/cache".toList) ["http://example.org/a".toList] false
        false none (fun _ => .ok [7])
        (cacheData ("/cache".toList) ["http://example.org/a".toList] false
          false none (fun _ => .ok [7]) []).fs).downloads = [] ∧
    (cacheData ("/cache".toList) ["http://example.org/a".toList] false
        false none (fun _ => .ok [7])
        (cacheData ("/cache".toList) ["http://example.org/a".toList] false
          false none (fun _ => .ok [7]) []).fs).result =
      (cacheData ("/cache".toList) ["http://example.org/a".toList] false
        false none (fun _ => .ok [7]) []).result :=
  claim1_idempotent ("/cache".toList) ["http://example.org/a".toList]
    false false none (fun _ => .ok [7]) [] (fun h => by cases h)
    (fun s hs => ⟨[7], by decide, rfl⟩)

theorem splitChar_ne_nil (sep : Char) (s : Str) : splitChar sep s ≠ [] := by
  cases s with
  | nil => simp [splitChar]
  | cons c cs =>
    simp only [splitChar]
    split
    · simp
    · split <;> simp

theorem splitChar_append_sep (sep : Char) (a b : Str) :
    splitChar sep (a ++ sep :: b) = splitChar sep a ++ splitChar sep b := by
  induction a with
  | nil =>
    simp only [List.nil_append, splitChar]
    cases h : splitChar sep b with
    | nil => exact absurd h (splitChar_ne_nil sep b)
    | cons x t => simp
  | cons c a' ih =>
    cases h : splitChar sep a' with
    | nil => exact absurd h (splitChar_ne_nil sep a')
    | cons x t =>
      by_cases hc : c = sep
      · simp [splitChar, ih, h, hc, List.cons_append]
      · simp [splitChar, ih, h, hc, List.cons_append]

theorem splitChar_sepFree (sep : Char) (s : Str)
    (h : ∀ c ∈ s, ¬(c = sep)) : splitChar sep s = [s] := by
  induction s with
  | nil => rfl
  | cons c cs ih =>
    have hc : ¬(c = sep) := h c (List.mem_cons_self c cs)
    have ih' := ih (fun x hx => h x (List.mem_cons_of_mem c hx))
    simp [splitChar, ih', hc]

theorem joinSep_cons_cons (sep c : Char) (x : Str) (t : List Str) :
    joinSep sep ((c :: x) :: t) = c :: joinSep sep (x :: t) := by
  cases t <;> rfl

theorem joinSep_splitChar (sep : Char) (s : Str) :
    joinSep sep (splitChar sep s) = s := by
  induction s with
  | nil => rfl
  | cons c cs ih =>
    cases h : splitChar sep cs with
    | nil => exact absurd h (splitChar_ne_nil sep cs)
    | cons x t =>
      rw [h] at ih
      by_cases hc : c = sep
      · simp [splitChar, h, hc, joinSep, ih]
      · simp only [splitChar, h, if_neg hc]
        rw [joinSep_cons_cons, ih]

theorem breakAt_none (t : Char) (s : Str) (h : ∀ c ∈ s, ¬(c = t)) :
    breakAt t s = none := by
  induction s with
  | nil => rfl
  | cons c cs ih =>
    simp [breakAt, h c (List.mem_cons_self c cs),
      ih (fun x hx => h x (List.mem_cons_of_mem c hx))]

theorem breakAt_append_first (t : Char) (a b : Str)
    (h : ∀ c ∈ a, ¬(c = t)) : breakAt t (a ++ t :: b) = some (a, b) := by
  induction a with
  | nil => simp [breakAt]
  | cons c a' ih =>
    simp [breakAt, h c (List.mem_cons_self c a'),
      ih (fun x hx => h x (List.mem_cons_of_mem c hx))]

theorem takeWhile_append_stop (p : Char → Bool) (a : Str) (b0 : Char)
    (b : Str) (ha : ∀ c ∈ a, p c = true) (hb : p b0 = false) :
    (a ++ b0 :: b).takeWhile p = a := by
  induction a with
  | nil => simp [List.takeWhile_cons, hb]
  | cons c a' ih =>
    simp [List.takeWhile_cons, ha c (List.mem_cons_self c a'),
      ih (fun x hx => ha x (List.mem_cons_of_mem c hx))]

theorem dropWhile_append_stop (p : Char → Bool) (a : Str) (b0 : Char)
    (b : Str) (ha : ∀ c ∈ a, p c = true) (hb : p b0 = false) :
    (a ++ b0 :: b).dropWhile p = b0 :: b := by
  induction a with
  | nil => simp [List.dropWhile_cons, hb]
  | cons c a' ih =>
    simp [List.dropWhile_cons, ha c (List.mem_cons_self c a'),
      ih (fun x hx => ha x (List.mem_cons_of_mem c hx))]

theorem head?_append_left (a b : Str) (h : a ≠ []) :
    (a ++ b).head? = a.head? := by
  cases a with
  | nil => exact absurd rfl h
  | cons c a' => rfl

theorem map_toLower_self (s : Str) (h : ∀ c ∈ s, c.toLower = c) :
    s.map Char.toLower = s := by
  induction s with
  | nil => rfl
  | cons c cs ih =>
    simp [h c (List.mem_cons_self c cs),
      ih (fun x hx => h x (List.mem_cons_of_mem c hx))]

theorem eq_cons_head_drop (s : Str) (c : Char) (h : s.head? = some c) :
    s = c :: s.drop 1 := by
  cases s with
  | nil => cases h
  | cons x xs =>
    injection h with h
    rw [h]
    rfl

theorem getD_append_len (l1 l2 : List Str) (d : Str) :
    (l1 ++ l2).getD l1.length d = l2.getD 0 d := by
  induction l1 with
  | nil => rfl
  | cons x xs ih => simpa using ih

theorem drop_append_len (l1 l2 : List Str) (n : Nat) :
    (l1 ++ l2).drop (l1.length + n) = l2.drop n := by
  induction l1 with
  | nil => simp
  | cons x xs ih =>
    simp only [List.length_cons, List.cons_append]
    rw [show xs.length + 1 + n = (xs.length + n) + 1 from by omega]
    rw [List.drop_succ_cons]
    exact ih

theorem mem_splitChar_sepFree (sep : Char) (s : Str) (x : Str)
    (hx : x ∈ splitChar sep s) : ∀ c ∈ x, ¬(c = sep) := by
  induction s generalizing x with
  | nil =>
    simp [splitChar] at hx
    subst hx
    intro c hc
    cases hc
  | cons c0 cs ih =>
    cases h : splitChar sep cs with
    | nil => exact absurd h (splitChar_ne_nil sep cs)
    | cons x0 t =>
      by_cases hc0 : c0 = sep
      · rw [show splitChar sep (c0 :: cs) = [] :: x0 :: t from by
          simp [splitChar, h, hc0]] at hx
        rcases List.mem_cons.mp hx with rfl | hx'
        · intro c hc; cases hc
        · exact ih x (h ▸ hx')
      · rw [show splitChar sep (c0 :: cs) = (c0 :: x0) :: t from by
          simp [splitChar, h, hc0]] at hx
        rcases List.mem_cons.mp hx with rfl | hx'
        · intro c hc
          rcases List.mem_cons.mp hc with rfl | hc'
          · exact hc0
          · exact ih x0 (h ▸ List.mem_cons_self x0 t) c hc'
        · exact ih x (h ▸ List.mem_cons_of_mem x0 hx')

theorem joinSep_cons_ne_nil (sep : Char) (x : Str) (l : List Str)
    (h : l ≠ []) : joinSep sep (x :: l) = x ++ sep :: joinSep sep l := by
  cases l with
  | nil => exact absurd rfl h
  | cons y l' => rfl

theorem splitChar_joinSep (sep : Char) (l : List Str) (hl : l ≠ [])
    (h : ∀ x ∈ l, ∀ c ∈ x, ¬(c = sep)) :
    splitChar sep (joinSep sep l) = l := by
  induction l with
  | nil => exact absurd rfl hl
  | cons x l' ih =>
    cases hl' : l' with
    | nil =>
      subst hl'
      exact splitChar_sepFree sep x (h x (List.mem_cons_self x []))
    | cons y t =>
      rw [← hl']
      have hl'ne : l' ≠ [] := by rw [hl']; intro hx; cases hx
      rw [joinSep_cons_ne_nil sep x l' hl'ne, splitChar_append_sep,
        splitChar_sepFree sep x (h x (List.mem_cons_self x l')),
        ih hl'ne (fun z hz => h z (List.mem_cons_of_mem x hz))]
      rfl

theorem joinSep_append_last (sep : Char) (l : List Str) (y z : Str) :
    joinSep sep (l ++ [y]) ++ z = joinSep sep (l ++ [y ++ z]) := by
  induction l with
  | nil => rfl
  | cons x l' ih =>
    have h1 : l' ++ [y] ≠ [] := by
      intro hx
      cases List.append_eq_nil.mp hx
      case intro h2 h3 => cases h3
    have h2 : l' ++ [y ++ z] ≠ [] := by
      intro hx
      cases List.append_eq_nil.mp hx
      case intro h2 h3 => cases h3
    rw [List.cons_append, joinSep_cons_ne_nil sep x (l' ++ [y]) h1,
      List.cons_append, joinSep_cons_ne_nil sep x (l' ++ [y ++ z]) h2]
    rw [List.append_assoc, List.cons_append]
    rw [ih]

theorem join2_eq (a b : Str) (ha : a ≠ []) (hal : a.getLast? ≠ some '/')
    (hb : b.head? ≠ some '/') : join2 a b = a ++ '/' :: b := by
  unfold join2
  rw [if_neg hb, if_neg ha, if_neg hal]

theorem getLast?_append_cons_ne (a : Str) (c : Char) (b : Str)
    (hb : b ≠ []) : (a ++ c :: b).getLast? = b.getLast? := by
  rw [List.getLast?_append_cons]
  cases b with
  | nil => exact absurd rfl hb
  | cons y b' => rw [List.getLast?_cons_cons]

theorem join3_eq (dataLocation s n r : Str)
    (hdl : dataLocation ≠ []) (hdll : dataLocation.getLast? ≠ some '/')
    (hs : s ≠ []) (hsh : s.head? ≠ some '/') (hsl : s.getLast? ≠ some '/')
    (hn : n ≠ []) (hnh : n.head? ≠ some '/') (hnl : n.getLast? ≠ some '/')
    (hr : r.head? ≠ some '/') :
    join2 (join2 (join2 dataLocation s) n) r =
      dataLocation ++ '/' :: (s ++ '/' :: (n ++ '/' :: r)) := by
  rw [join2_eq dataLocation s hdl hdll hsh]
  have h1 : dataLocation ++ '/' :: s ≠ [] := by
    intro hx
    cases List.append_eq_nil.mp hx
    case intro h2 h3 => cases h3
  have h1l : (dataLocation ++ '/' :: s).getLast? ≠ some '/' := by
    rw [getLast?_append_cons_ne dataLocation '/' s hs]
    exact hsl
  rw [join2_eq (dataLocation ++ '/' :: s) n h1 h1l hnh]
  have h2 : (dataLocation ++ '/' :: s) ++ '/' :: n ≠ [] := by
    intro hx
    cases List.append_eq_nil.mp hx
    case intro h3 h4 => cases h4
  have h2l : ((dataLocation ++ '/' :: s) ++ '/' :: n).getLast? ≠ some '/'
      := by
    rw [getLast?_append_cons_ne (dataLocation ++ '/' :: s) '/' n hn]
    exact hnl
  rw [join2_eq ((dataLocation ++ '/' :: s) ++ '/' :: n) r h2 h2l hr]
  simp [List.append_assoc]

theorem generatePath_eq_append (dataLocation : Str) (u : ParseResult)
    (hdl : dataLocation ≠ []) (hdll : dataLocation.getLast? ≠ some '/')
    (hs : u.scheme ≠ []) (hsh : u.scheme.head? ≠ some '/')
    (hsl : u.scheme.getLast? ≠ some '/')
    (hn : u.netloc ≠ []) (hnh : u.netloc.head? ≠ some '/')
    (hnl : u.netloc.getLast? ≠ some '/')
    (hp : (u.path.drop 1).head? ≠ some '/') :
    generatePath dataLocation u =
      dataLocation ++ '/' :: (u.scheme ++ '/' :: (u.netloc ++ '/' ::
        (u.path.drop 1 ++
          if u.query = [] then [] else '?' :: u.query))) := by
  unfold generatePath
  by_cases hq : u.query = []
  · rw [if_pos hq]
    rw [join3_eq dataLocation u.scheme u.netloc (u.path.drop 1) hdl hdll
      hs hsh hsl hn hnh hnl hp]
    simp [hq]
  · rw [if_neg hq]
    have hr : (u.path.drop 1 ++ '?' :: u.query).head? ≠ some '/' := by
      cases hpd : u.path.drop 1 with
      | nil => simp
      | cons c t =>
        rw [List.cons_append, List.head?_cons]
        rw [hpd] at hp
        simpa using hp
    rw [join3_eq dataLocation u.scheme u.netloc
      (u.path.drop 1 ++ '?' :: u.query) hdl hdll hs hsh hsl hn hnh hnl hr]
    rw [if_neg hq]

/-- Claim C3 (corrected): the path-mapping formula — for a non-empty cache
root without a trailing separator, a non-empty scheme and netloc that
neither begin nor end with `/`, and a URL path whose remainder after the
leading slash does not itself begin with `/`, the generated local path is
the cache root, scheme, netloc and stripped path glued with `/`, with
`'?' + query` appended to the final component exactly when the query is
non-empty.  (Without these side conditions the formula fails:
`os.path.join` discards everything before an absolute component — see
the counterexample.) -/
theorem claim3_path_formula (dataLocation : Str) (u : ParseResult)
    (hdl : dataLocation ≠ []) (hdll : dataLocation.getLast? ≠ some '/')
    (hs : u.scheme ≠ []) (hsh : u.scheme.head? ≠ some '/')
    (hsl : u.scheme.getLast? ≠ some '/')
    (hn : u.netloc ≠ []) (hnh : u.netloc.head? ≠ some '/')
    (hnl : u.netloc.getLast? ≠ some '/')
    (hp : (u.path.drop 1).head? ≠ some '/') :
    generatePath dataLocation u =
      dataLocation ++ '/' :: (u.scheme ++ '/' :: (u.netloc ++ '/' ::
        (u.path.drop 1 ++
          if u.query = [] then [] else '?' :: u.query))) :=
  generatePath_eq_append dataLocation u hdl hdll hs hsh hsl hn hnh hnl hp

/-- Claim C3 counterexample: the well-formed URL `http://example.org//a`
(empty first path segment) maps to the local path `/a`: `os.path.join`
treats the stripped path `/a` as absolute and discards the cache root,
the scheme and the netloc, so the claimed formula
`<CacheRoot>/<scheme>/<netloc>/<path>` does not hold for it. -/
theorem claim3_counterexample :
    generatePath ("/cache".toList)
        (urlparseModel ("http://example.org//a".toList)) = "/a".toList ∧
    ¬(("/cache/".toList).isPrefixOf
      (generatePath ("/cache".toList)
        (urlparseModel ("http://example.org//a".toList)))) := by
  decide

theorem claim3_witness :
    generatePath ("/cache".toList)
        (urlparseModel ("http://example.org/a/b.txt?x=1".toList)) =
      "/cache".toList ++ '/' ::
        ((urlparseModel ("http://example.org/a/b.txt?x=1".toList)).scheme
          ++ '/' ::
          ((urlparseModel
            ("http://example.org/a/b.txt?x=1".toList)).netloc ++ '/' ::
            ((urlparseModel
              ("http://example.org/a/b.txt?x=1".toList)).path.drop 1 ++
              if (urlparseModel
                ("http://example.org/a/b.txt?x=1".toList)).query = []
              then [] else '?' ::
                (urlparseModel
                  ("http://example.org/a/b.txt?x=1".toList)).query))) :=
  claim3_path_formula ("/cache".toList)
    (urlparseModel ("http://example.org/a/b.txt?x=1".toList)) (by decide)
    (by decide) (by decide) (by decide) (by decide) (by decide) (by decide)
    (by decide) (by decide)

theorem mem_of_head? (s : Str) (c : Char) (h : s.head? = some c) :
    c ∈ s := by
  cases s with
  | nil => cases h
  | cons x t =>
    injection h with h
    rw [← h]
    exact List.mem_cons_self x t

theorem mem_of_getLast?' (s : Str) (c : Char) (h : s.getLast? = some c) :
    c ∈ s := by
  induction s with
  | nil => cases h
  | cons x t ih =>
    cases ht : t with
    | nil =>
      subst ht
      injection h with h
      rw [← h]
      exact List.mem_cons_self x []
    | cons y t' =>
      subst ht
      rw [List.getLast?_cons_cons] at h
      exact List.mem_cons_of_mem x (ih h)

theorem headD_eq_of_head? (s : Str) (c d : Char) (h : s.head? = some c) :
    s.headD d = c := by
  cases s with
  | nil => cases h
  | cons x t =>
    have hx : x = c := Option.some.inj h
    rw [← hx]
    rfl

theorem splitChar_cons_sep (sep : Char) (s : Str) :
    splitChar sep (sep :: s) = [] :: splitChar sep s := by
  cases h : splitChar sep s with
  | nil => exact absurd h (splitChar_ne_nil sep s)
  | cons x t => simp [splitChar, h]

theorem splitChar_head_sep (sep : Char) (s : Str)
    (h : s.head? = some sep) : [] ∈ splitChar sep s := by
  cases s with
  | nil => cases h
  | cons x t =>
    injection h with h
    subst h
    rw [splitChar_cons_sep]
    exact List.mem_cons_self [] _

theorem urlparseModel_reconstruct (u : ParseResult)
    (hs : u.scheme ≠ [])
    (hshA : (u.scheme.headD ' ').isAlpha = true)
    (hsall : ∀ c ∈ u.scheme, isSchemeChar c = true)
    (hslow : ∀ c ∈ u.scheme, c.toLower = c)
    (hn : u.netloc ≠ [])
    (hnall : ∀ c ∈ u.netloc, isNetlocDelim c = false)
    (hph : u.path.head? = some '/')
    (hpchars : ∀ c ∈ u.path, ¬(c = '?' ∨ c = '#' ∨ c = ';'))
    (hparams : u.params = [])
    (hfrag : u.fragment = [])
    (hq : ∀ c ∈ u.query, ¬(c = '/' ∨ c = '#')) :
    urlparseModel (u.scheme ++ ':' :: '/' :: '/' :: (u.netloc ++ '/' ::
      (u.path.drop 1 ++
        if u.query = [] then [] else '?' :: u.query))) = u := by
  obtain ⟨us, un, up, upa, uq, uf⟩ := u
  simp only at hs hshA hsall hslow hn hnall hph hpchars hparams hfrag hq ⊢
  subst hparams
  subst hfrag
  have hdropsub : ∀ c ∈ up.drop 1, c ∈ up :=
    fun c hc => List.mem_of_mem_drop hc
  have hsc : ∀ c ∈ us, ¬(c = ':') := by
    intro c hc he
    have h2 := hsall c hc
    rw [he] at h2
    simp [isSchemeChar] at h2
  set tail := up.drop 1 ++ (if uq = [] then [] else '?' :: uq) with htail
  have hb1 : breakAt ':' (us ++ ':' :: '/' :: '/' :: (un ++ '/' :: tail)) =
      some (us, '/' :: '/' :: (un ++ '/' :: tail)) :=
    breakAt_append_first ':' us _ hsc
  have htw : (un ++ '/' :: tail).takeWhile
      (fun c => !isNetlocDelim c) = un :=
    takeWhile_append_stop _ un '/' tail
      (fun c hc => by rw [hnall c hc]; rfl) (by simp [isNetlocDelim])
  have hdw : (un ++ '/' :: tail).dropWhile
      (fun c => !isNetlocDelim c) = '/' :: tail :=
    dropWhile_append_stop _ un '/' tail
      (fun c hc => by rw [hnall c hc]; rfl) (by simp [isNetlocDelim])
  have hnohash : ∀ c ∈ ('/' :: tail), ¬(c = '#') := by
    intro c hc he
    subst he
    rcases List.mem_cons.mp hc with h1 | h1
    · exact absurd h1 (by decide)
    · rw [htail] at h1
      rcases List.mem_append.mp h1 with h2 | h2
      · exact hpchars '#' (hdropsub _ h2) (Or.inr (Or.inl rfl))
      · by_cases hqe : uq = []
        · rw [if_pos hqe] at h2
          cases h2
        · rw [if_neg hqe] at h2
          rcases List.mem_cons.mp h2 with h3 | h3
          · exact absurd h3 (by decide)
          · exact hq '#' h3 (Or.inr rfl)
  have hb2 : breakAt '#' ('/' :: tail) = none := breakAt_none '#' _ hnohash
  have hall : List.all us isSchemeChar = true := List.all_eq_true.mpr hsall
  have hmap : us.map Char.toLower = us := map_toLower_self us hslow
  have htake : List.take 2 ('/' :: '/' :: (un ++ '/' :: tail)) =
    ['/', '/'] := rfl
  have hdrop : List.drop 2 ('/' :: '/' :: (un ++ '/' :: tail)) =
    un ++ '/' :: tail := rfl
  by_cases hqe : uq = []
  · have htail2 : tail = up.drop 1 := by
      rw [htail, if_pos hqe, List.append_nil]
    have hnoq : ∀ c ∈ ('/' :: tail), ¬(c = '?') := by
      intro c hc he
      subst he
      rcases List.mem_cons.mp hc with h1 | h1
      · exact absurd h1 (by decide)
      · rw [htail2] at h1
        exact hpchars '?' (hdropsub _ h1) (Or.inl rfl)
    have hb3 : breakAt '?' ('/' :: tail) = none := breakAt_none '?' _ hnoq
    have hpe : '/' :: tail = up := by
      rw [htail2]
      exact (eq_cons_head_drop up '/' hph).symm
    have hnosemi : (('/' :: tail).any (fun c => decide (c = ';'))) =
        false := by
      rw [hpe]
      simp only [List.any_eq_false, decide_eq_true_eq]
      intro c hc he
      exact hpchars c hc (Or.inr (Or.inr he))
    simp only [urlparseModel, urlsplitModel, hb1, ne_eq, hs,
      not_false_eq_true, hshA, hall, and_self, and_true, true_and,
      if_true, hmap, htake, hdrop, htw, hdw, hb2, hb3, hnosemi,
      Bool.false_eq_true, and_false, if_false]
    simp [hpe, hqe]
  · have htail2 : tail = up.drop 1 ++ '?' :: uq := by
      rw [htail, if_neg hqe]
    have hnoq : ∀ c ∈ up.drop 1, ¬(c = '?') := by
      intro c hc he
      exact hpchars c (hdropsub _ hc) (Or.inl he)
    have hb3 : breakAt '?' ('/' :: tail) =
        some ('/' :: up.drop 1, uq) := by
      rw [htail2]
      simp only [breakAt, if_neg (show ¬('/' = '?') from by decide)]
      rw [breakAt_append_first '?' (up.drop 1) uq hnoq]
      rfl
    have hpe : '/' :: up.drop 1 = up :=
      (eq_cons_head_drop up '/' hph).symm
    have hnosemi : (('/' :: up.drop 1).any (fun c => decide (c = ';')))
        = false := by
      rw [hpe]
      simp only [List.any_eq_false, decide_eq_true_eq]
      intro c hc he
      exact hpchars c hc (Or.inr (Or.inr he))
    simp only [urlparseModel, urlsplitModel, hb1, ne_eq, hs,
      not_false_eq_true, hshA, hall, and_self, and_true, true_and,
      if_true, hmap, htake, hdrop, htw, hdw, hb2, hb3, hnosemi,
      Bool.false_eq_true, and_false, if_false]
    simp [hpe]
    rw [← List.drop_one]
    exact hpe

theorem parseURL_generatePath_core (dataLocation : Str) (u : ParseResult)
    (rest : Str) (comps2 : List Str)
    (hPeq : generatePath dataLocation u =
      dataLocation ++ '/' :: (u.scheme ++ '/' :: (u.netloc ++ '/' :: rest)))
    (hdlh : dataLocation.head? = some '/')
    (hdcomps : ∀ c ∈ splitChar '/' (dataLocation.drop 1),
      ¬(c = [] ∨ c = ['.']))
    (hsfree : ∀ c ∈ u.scheme, ¬(c = '/'))
    (hsne : u.scheme ≠ []) (hsdot : u.scheme ≠ ['.'])
    (hsfile : u.scheme ≠ "file".toList)
    (hnfree : ∀ c ∈ u.netloc, ¬(c = '/'))
    (hnne : u.netloc ≠ []) (hndot : u.netloc ≠ ['.'])
    (hsplit : splitChar '/' rest = comps2)
    (hc2 : ∀ c ∈ comps2, ¬(c = [] ∨ c = ['.'])) :
    parseURL dataLocation (generatePath dataLocation u) =
      urlparseModel (u.scheme ++ ':' :: '/' :: '/' ::
        (u.netloc ++ '/' :: rest)) := by
  have hdlne : dataLocation ≠ [] := by
    intro h
    rw [h] at hdlh
    cases hdlh
  have hdl_eq : dataLocation = '/' :: dataLocation.drop 1 :=
    eq_cons_head_drop _ '/' hdlh
  have hc2ne : comps2 ≠ [] := by
    rw [← hsplit]
    exact splitChar_ne_nil '/' rest
  have hsplitP : splitChar '/'
      (dataLocation ++ '/' :: (u.scheme ++ '/' :: (u.netloc ++ '/' :: rest)))
      = splitChar '/' dataLocation ++
          ([u.scheme] ++ ([u.netloc] ++ comps2)) := by
    rw [splitChar_append_sep '/' dataLocation,
      splitChar_append_sep '/' u.scheme,
      splitChar_append_sep '/' u.netloc,
      splitChar_sepFree '/' u.scheme hsfree,
      splitChar_sepFree '/' u.netloc hnfree, hsplit]
  have hsplitdl : splitChar '/' dataLocation =
      [] :: splitChar '/' (dataLocation.drop 1) := by
    conv_lhs => rw [hdl_eq]
    exact splitChar_cons_sep '/' _
  have hprednil : (decide (¬(([] : Str) = [] ∨ ([] : Str) = ['.']))) =
      false := by decide
  have hfilter_raw : (splitChar '/' (dataLocation.drop 1)).filter
      (fun c => decide (¬(c = [] ∨ c = ['.']))) =
      splitChar '/' (dataLocation.drop 1) :=
    List.filter_eq_self.mpr (fun a ha => decide_eq_true (hdcomps a ha))
  have hfilter_c2 : comps2.filter
      (fun c => decide (¬(c = [] ∨ c = ['.']))) = comps2 :=
    List.filter_eq_self.mpr (fun a ha => decide_eq_true (hc2 a ha))
  have hpreds : (decide (¬(u.scheme = [] ∨ u.scheme = ['.']))) = true :=
    decide_eq_true (fun h => h.elim hsne hsdot)
  have hpredn : (decide (¬(u.netloc = [] ∨ u.netloc = ['.']))) = true :=
    decide_eq_true (fun h => h.elim hnne hndot)
  have hparts_dl : pathParts dataLocation =
      ['/'] :: splitChar '/' (dataLocation.drop 1) := by
    unfold pathParts
    rw [if_pos hdlh, hsplitdl, List.filter_cons, hprednil]
    simp only [Bool.false_eq_true, if_false]
    rw [hfilter_raw]
    rfl
  have hheadP :
      (dataLocation ++ '/' ::
        (u.scheme ++ '/' :: (u.netloc ++ '/' :: rest))).head? =
      some '/' := by
    rw [head?_append_left _ _ hdlne]
    exact hdlh
  have hparts_P : pathParts (generatePath dataLocation u) =
      (['/'] :: splitChar '/' (dataLocation.drop 1)) ++
        (u.scheme :: u.netloc :: comps2) := by
    rw [hPeq]
    unfold pathParts
    rw [if_pos hheadP, hsplitP, hsplitdl]
    simp only [List.filter_append, List.filter_cons, hprednil, hpreds,
      hpredn, Bool.false_eq_true, if_false, if_true, List.filter_nil,
      hfilter_raw, hfilter_c2]
    simp [List.append_assoc]
  simp only [parseURL]
  rw [hparts_P, hparts_dl, getD_append_len,
    drop_append_len (['/'] :: splitChar '/' (dataLocation.drop 1))
      (u.scheme :: u.netloc :: comps2) 1]
  simp only [List.getD_cons_zero, List.drop_succ_cons, List.drop_zero]
  rw [if_neg hsfile]
  rw [if_neg (show ¬(u.netloc :: comps2 = []) from by simp)]
  rw [joinSep_cons_ne_nil '/' u.netloc comps2 hc2ne]
  rw [show joinSep '/' comps2 = rest from by
    rw [← hsplit]
    exact joinSep_splitChar '/' rest]
  have hcolon : ("://".toList : Str) = [':', '/', '/'] := rfl
  rw [hcolon]
  simp [List.append_assoc]

theorem parseURL_generatePath (dataLocation : Str) (u : ParseResult)
    (hdl : cleanRoot dataLocation = true) (hu : GoodURL u = true) :
    parseURL dataLocation (generatePath dataLocation u) = u := by
  simp only [cleanRoot, Bool.and_eq_true, decide_eq_true_eq,
    List.all_eq_true] at hdl
  simp only [GoodURL, validSchemeStr, goodNetloc, goodQuery, goodComp,
    Bool.and_eq_true, decide_eq_true_eq, List.all_eq_true,
    Bool.not_eq_true', Bool.or_eq_false_iff, decide_eq_false_iff_not]
    at hu
  obtain ⟨⟨hdlh, hdll⟩, hdcomps⟩ := hdl
  obtain ⟨⟨⟨⟨⟨⟨⟨⟨⟨⟨hsne, hshA⟩, hschars⟩, hsfile⟩, ⟨⟨hnne, hndot⟩,
    hnall⟩⟩, hph⟩, hcomps⟩, hpchars⟩, hparams⟩, hfrag⟩, hq⟩ := hu
  have hdlne : dataLocation ≠ [] := by
    intro h
    rw [h] at hdlh
    cases hdlh
  have hsall : ∀ c ∈ u.scheme, isSchemeChar c = true :=
    fun c hc => (hschars c hc).1
  have hslow : ∀ c ∈ u.scheme, c.toLower = c :=
    fun c hc => (hschars c hc).2
  have hsfree : ∀ c ∈ u.scheme, ¬(c = '/') := by
    intro c hc he
    have h2 := hsall c hc
    rw [he] at h2
    simp [isSchemeChar] at h2
  have hsh : u.scheme.head? ≠ some '/' := by
    intro hx
    rw [headD_eq_of_head? u.scheme '/' ' ' hx] at hshA
    exact absurd hshA (by decide)
  have hsl : u.scheme.getLast? ≠ some '/' := by
    intro hx
    exact hsfree '/' (mem_of_getLast?' _ _ hx) rfl
  have hsdot : u.scheme ≠ ['.'] := by
    intro hx
    rw [hx] at hshA
    exact absurd hshA (by decide)
  have hnfree : ∀ c ∈ u.netloc, ¬(c = '/') := by
    intro c hc he
    have h2 := hnall c hc
    rw [he] at h2
    exact absurd h2 (by decide)
  have hnh : u.netloc.head? ≠ some '/' :=
    fun hx => hnfree '/' (mem_of_head? _ _ hx) rfl
  have hnl : u.netloc.getLast? ≠ some '/' :=
    fun hx => hnfree '/' (mem_of_getLast?' _ _ hx) rfl
  have hndot2 : u.netloc ≠ ['.'] := by
    intro hx
    apply hndot
    rw [hx]
    rfl
  have hp1 : (u.path.drop 1).head? ≠ some '/' := by
    intro hx
    exact (hcomps [] (splitChar_head_sep '/' _ hx)).1 rfl
  have hPeq := generatePath_eq_append dataLocation u hdlne hdll hsne hsh
    hsl hnne hnh hnl hp1
  have hpchars2 : ∀ c ∈ u.path, ¬(c = '?' ∨ c = '#' ∨ c = ';') := by
    intro c hc h
    obtain ⟨⟨h1, h2⟩, h3⟩ := hpchars c hc
    rcases h with h | h | h
    exacts [h1 h, h2 h, h3 h]
  have hq2 : ∀ c ∈ u.query, ¬(c = '/' ∨ c = '#') := by
    intro c hc h
    obtain ⟨h1, h2⟩ := hq c hc
    rcases h with h | h
    exacts [h1 h, h2 h]
  by_cases hqe : u.query = []
  · have hPeq2 : generatePath dataLocation u =
        dataLocation ++ '/' :: (u.scheme ++ '/' ::
          (u.netloc ++ '/' :: u.path.drop 1)) := by
      rw [hPeq, if_pos hqe, List.append_nil]
    have hc2 : ∀ c ∈ splitChar '/' (u.path.drop 1),
        ¬(c = [] ∨ c = ['.']) := by
      intro c hc h
      obtain ⟨h1, h2⟩ := hcomps c hc
      rcases h with h | h
      · exact h1 h
      · rw [h] at h2
        exact h2 rfl
    rw [parseURL_generatePath_core dataLocation u (u.path.drop 1)
      (splitChar '/' (u.path.drop 1)) hPeq2 hdlh hdcomps hsfree hsne hsdot
      hsfile hnfree hnne hndot2 rfl hc2]
    have hrec := urlparseModel_reconstruct u hsne hshA hsall hslow hnne
      hnall hph hpchars2 hparams hfrag hq2
    rw [if_pos hqe, List.append_nil] at hrec
    exact hrec
  · set comps := splitChar '/' (u.path.drop 1) with hcompsdef
    have hcne : comps ≠ [] := splitChar_ne_nil '/' _
    set g := comps.getLast hcne with hgdef
    have hgmem : g ∈ comps := List.getLast_mem hcne
    have hrest : u.path.drop 1 ++ '?' :: u.query =
        joinSep '/' (comps.dropLast ++ [g ++ '?' :: u.query]) := by
      have h1 : u.path.drop 1 = joinSep '/' comps :=
        (joinSep_splitChar '/' _).symm
      rw [h1]
      conv_lhs => rw [← List.dropLast_append_getLast hcne]
      rw [joinSep_append_last]
    have hsplit : splitChar '/' (u.path.drop 1 ++ '?' :: u.query) =
        comps.dropLast ++ [g ++ '?' :: u.query] := by
      rw [hrest]
      apply splitChar_joinSep
      · intro hx
        cases List.append_eq_nil.mp hx
        case intro a b => cases b
      · intro x hx
        rcases List.mem_append.mp hx with hx1 | hx1
        · exact mem_splitChar_sepFree '/' (u.path.drop 1) x
            ((List.dropLast_sublist comps).subset hx1)
        · rw [List.mem_singleton.mp hx1]
          intro c hc
          rcases List.mem_append.mp hc with hc1 | hc1
          · exact mem_splitChar_sepFree '/' (u.path.drop 1) g hgmem c hc1
          · rcases List.mem_cons.mp hc1 with rfl | hc2
            · decide
            · exact fun he => (hq c hc2).1 he
    have hc2 : ∀ c ∈ comps.dropLast ++ [g ++ '?' :: u.query],
        ¬(c = [] ∨ c = ['.']) := by
      intro c hc h
      rcases List.mem_append.mp hc with hc1 | hc1
      · obtain ⟨h1, h2⟩ := hcomps c ((List.dropLast_sublist comps).subset hc1)
        rcases h with h | h
        · exact h1 h
        · rw [h] at h2
          exact h2 rfl
      · have hceq := List.mem_singleton.mp hc1
        subst hceq
        rcases h with h | h
        · cases List.append_eq_nil.mp h
          case intro a b => cases b
        · cases hgc : g with
          | nil =>
            rw [hgc] at h
            simp at h
          | cons a g2 =>
            rw [hgc] at h
            injection h with ha hb
            cases List.append_eq_nil.mp hb
            case intro p q => cases q
    have hPeq2 : generatePath dataLocation u =
        dataLocation ++ '/' :: (u.scheme ++ '/' :: (u.netloc ++ '/' ::
          (u.path.drop 1 ++ '?' :: u.query))) := by
      rw [hPeq, if_neg hqe]
    rw [parseURL_generatePath_core dataLocation u
      (u.path.drop 1 ++ '?' :: u.query)
      (comps.dropLast ++ [g ++ '?' :: u.query]) hPeq2 hdlh hdcomps hsfree
      hsne hsdot hsfile hnfree hnne hndot2 hsplit hc2]
    have hrec := urlparseModel_reconstruct u hsne hshA hsall hslow hnne
      hnall hph hpchars2 hparams hfrag hq2
    rw [if_neg hqe] at hrec
    exact hrec

/-- Claim C2 (corrected): bijective path mapping — restricted to a clean
cache root and to parsed URLs in good form (normal lowercase non-`file`
scheme, non-empty delimiter-free netloc, absolute path with well-behaved
components, no params and no fragment, `/`-free and `#`-free query),
`generatePath` is injective and `parseURL` inverts it exactly.  The
same-URL-same-path part of the claim is definitional: the mapping is a
pure function of the parsed URL.  Unrestricted, the claim fails: a URL
fragment is dropped by the mapping — see the counterexample. -/
theorem claim2_bijective_mapping (dataLocation : Str) (u v : ParseResult)
    (hdl : cleanRoot dataLocation = true) (hu : GoodURL u = true)
    (hv : GoodURL v = true) :
    (u ≠ v → generatePath dataLocation u ≠ generatePath dataLocation v) ∧
    parseURL dataLocation (generatePath dataLocation u) = u := by
  have hru := parseURL_generatePath dataLocation u hdl hu
  have hrv := parseURL_generatePath dataLocation v hdl hv
  refine ⟨?_, hru⟩
  intro huv hpath
  apply huv
  rw [← hru, ← hrv, hpath]

/-- Claim C2 counterexample: the two distinct well-formed URLs
`http://example.org/a/b.txt#f` and `http://example.org/a/b.txt` (which
also parse to distinct `ParseResult`s) are mapped to the *same* local
path — `generatePath` ignores the fragment — and the reverse mapping
does not recover the fragment-bearing URL, so neither injectivity nor
the inverse property holds for arbitrary well-formed URLs. -/
theorem claim2_counterexample :
    "http://example.org/a/b.txt#f".toList ≠
      "http://example.org/a/b.txt".toList ∧
    urlparseModel ("http://example.org/a/b.txt#f".toList) ≠
      urlparseModel ("http://example.org/a/b.txt".toList) ∧
    generatePath ("/cache".toList)
        (urlparseModel ("http://example.org/a/b.txt#f".toList)) =
      generatePath ("/cache".toList)
        (urlparseModel ("http://example.org/a/b.txt".toList)) ∧
    parseURL ("/cache".toList)
        (generatePath ("/cache".toList)
          (urlparseModel ("http://example.org/a/b.txt#f".toList))) ≠
      urlparseModel ("http://example.org/a/b.txt#f".toList) := by
  decide

theorem claim2_witness :
    (urlparseModel ("http://example.org/a".toList) ≠
        urlparseModel ("https://example.org/b".toList) →
      generatePath ("/cache".toList)
          (urlparseModel ("http://example.org/a".toList)) ≠
        generatePath ("/cache".toList)
          (urlparseModel ("https://example.org/b".toList))) ∧
    parseURL ("/cache".toList)
        (generatePath ("/cache".toList)
          (urlparseModel ("http://example.org/a".toList))) =
      urlparseModel ("http://example.org/a".toList) :=
  claim2_bijective_mapping ("/cache".toList)
    (urlparseModel ("http://example.org/a".toList))
    (urlparseModel ("https://example.org/b".toList)) (by decide)
    (by decide) (by decide)

-- sanity checks of the model against concrete CPython behaviour
-- sanity checks of the URL model against CPython behaviour
example :
    urlparseModel ("http://example.org/a/b.txt".toList) =
      ⟨"http".toList, "example.org".toList, "/a/b.txt".toList, [], [], []⟩ := by
  decide

example :
    urlparseModel ("HTTP://Example.org/a?x=1#f".toList) =
      ⟨"http".toList, "Example.org".toList, "/a".toList, [], "x=1".toList,
        "f".toList⟩ := by
  decide

example :
    urlparseModel ("http://e/a/b;p?q".toList) =
      ⟨"http".toList, "e".toList, "/a/b".toList, "p".toList, "q".toList,
        []⟩ := by
  decide

example :
    urlparseModel ("file:///data/x.nc".toList) =
      ⟨"file".toList, [], "/data/x.nc".toList, [], [], []⟩ := by
  decide

example :
    generatePath ("/cache".toList)
        (urlparseModel ("http://example.org/a/b.txt?x=1".toList)) =
      "/cache/http/example.org/a/b.txt?x=1".toList := by
  decide

example :
    parseURL ("/cache".toList) ("/cache/http/example.org/a/b.txt?x=1".toList) =
      urlparseModel ("http://example.org/a/b.txt?x=1".toList) := by
  decide

example :
    parseURL ("/cache".toList) ("/cache/file/data/x.nc".toList) =
      urlparseModel ("file:///data/x.nc".toList) := by
  decide

-- os.path.join resets on an absolute component: a URL path beginning with
-- a double slash escapes the cache root entirely
example :
    generatePath ("/cache".toList)
        (urlparseModel ("http://example.org//a".toList)) = "/a".toList := by
  decide

-- sanity: a fresh cache downloads both URLs of the scenario of the spec
-- and returns their paths in order
example :
    (cacheData ("/cache".toList)
        ["http://example.org/a/b.txt".toList,
         "http://example.org/a/b.txt?x=1".toList]
        false false none (fun _ => .ok [7]) []).result =
      .ok ["/cache/http/example.org/a/b.txt".toList,
           "/cache/http/example.org/a/b.txt?x=1".toList] := by
  decide

-- sanity: the second call on the resulting filesystem downloads nothing
example :
    (cacheData ("/cache".toList) ["http://example.org/a/b.txt".toList]
        false false none (fun _ => .ok [7])
        (cacheData ("/cache".toList) ["http://example.org/a/b.txt".toList]
          false false none (fun _ => .ok [7]) []).fs).downloads = [] := by
  decide
